import Mathlib

/-!
Verification of the Excalibur UI framework (focus manager, buttons, radio
groups, numeric inputs, tabbed panels) against its natural-language
specification.  The TypeScript components are shallowly embedded as pure
state-transition functions; JS Map objects become association lists, event
emission becomes an appended event log, and synchronous re-entrant event
callbacks (checkbox setters firing group handlers) are modelled with a fuel
parameter that strictly decreases at every callback boundary.
-/

namespace UIFW

/-! Association-list model of a JS Map (insertion-ordered, unique keys).
The set operation replaces an existing binding in place and otherwise
appends, delete removes the binding, and keys lists keys in order, exactly
as a JS Map behaves. -/

def mapGet (m : List (Int × Nat)) (k : Int) : Option Nat :=
  (m.find? (fun p => decide (p.1 = k))).map (fun p => p.2)

def mapHas (m : List (Int × Nat)) (k : Int) : Bool :=
  m.any (fun p => decide (p.1 = k))

def mapSet (m : List (Int × Nat)) (k : Int) (v : Nat) : List (Int × Nat) :=
  if mapHas m k then m.map (fun p => if p.1 = k then (k, v) else p) else m ++ [(k, v)]

def mapDelete (m : List (Int × Nat)) (k : Int) : List (Int × Nat) :=
  m.filter (fun p => decide (p.1 ≠ k))

def mapKeys (m : List (Int × Nat)) : List Int :=
  m.map (fun p => p.1)

theorem mapGet_nil (k : Int) : mapGet [] k = none := rfl

theorem mapGet_cons (p : Int × Nat) (t : List (Int × Nat)) (k : Int) :
    mapGet (p :: t) k = if p.1 = k then some p.2 else mapGet t k := by
  by_cases h : p.1 = k <;> simp [mapGet, List.find?_cons, h]

theorem mapGet_eq_some_mem {m : List (Int × Nat)} {k : Int} {v : Nat}
    (h : mapGet m k = some v) : (k, v) ∈ m := by
  induction m with
  | nil => simp [mapGet_nil] at h
  | cons p t ih =>
    rw [mapGet_cons] at h
    by_cases hk : p.1 = k
    · simp only [hk, if_true, Option.some.injEq] at h
      exact List.mem_cons.mpr (Or.inl (by cases p; simp_all))
    · simp only [hk, if_false] at h
      exact List.mem_cons_of_mem _ (ih h)

theorem mapGet_eq_none_iff {m : List (Int × Nat)} {k : Int} :
    mapGet m k = none ↔ k ∉ mapKeys m := by
  induction m with
  | nil => simp [mapGet_nil, mapKeys]
  | cons p t ih =>
    rw [mapGet_cons]
    by_cases hk : p.1 = k
    · simp [hk, mapKeys]
    · simp only [hk, if_false, ih, mapKeys, List.map_cons, List.mem_cons]
      constructor
      · intro hn hc
        rcases hc with hc | hc
        · exact hk hc.symm
        · exact hn (by simpa [mapKeys] using hc)
      · intro hn hc
        exact hn (Or.inr (by simpa [mapKeys] using hc))

theorem get_of_mem_keys {m : List (Int × Nat)} {k : Int} (h : k ∈ mapKeys m) :
    ∃ v, mapGet m k = some v := by
  cases hg : mapGet m k with
  | none => exact absurd (mapGet_eq_none_iff.mp hg) (by simp [h])
  | some v => exact ⟨v, rfl⟩

theorem mem_keys_of_get {m : List (Int × Nat)} {k : Int} {v : Nat}
    (h : mapGet m k = some v) : k ∈ mapKeys m := by
  by_contra hk
  rw [← mapGet_eq_none_iff] at hk
  simp [h] at hk

theorem mapHas_iff {m : List (Int × Nat)} {k : Int} :
    mapHas m k = true ↔ k ∈ mapKeys m := by
  unfold mapHas mapKeys
  simp [List.any_eq_true, List.mem_map]

theorem mapGetReplace (m : List (Int × Nat)) (k : Int) (v : Nat) (hk : k ∈ mapKeys m) :
    mapGet (m.map (fun p => if p.1 = k then (k, v) else p)) k = some v := by
  induction m with
  | nil => simp [mapKeys] at hk
  | cons p t ih =>
    by_cases hp : p.1 = k
    · simp [mapGet_cons, hp]
    · have ht : k ∈ mapKeys t := by
        simp [mapKeys, hp] at hk ⊢
        rcases hk with hk | hk
        · exact absurd hk.symm hp
        · exact hk
      simp [mapGet_cons, hp, ih ht]

theorem mapGetReplaceNe (m : List (Int × Nat)) {k k' : Int} (v : Nat) (h : k' ≠ k) :
    mapGet (m.map (fun p => if p.1 = k then (k, v) else p)) k' = mapGet m k' := by
  induction m with
  | nil => rfl
  | cons p t ih =>
    by_cases hp : p.1 = k
    · have hkk : ¬ (k = k') := fun hc => h hc.symm
      simp [mapGet_cons, hp, hkk, ih]
    · simp [mapGet_cons, hp, ih]

theorem mapGetAppendNe (m : List (Int × Nat)) {k k' : Int} (v : Nat) (h : k' ≠ k) :
    mapGet (m ++ [(k, v)]) k' = mapGet m k' := by
  induction m with
  | nil => simp [mapGet_cons, mapGet_nil, Ne.symm h]
  | cons p t ih =>
    by_cases hp : p.1 = k' <;> simp [mapGet_cons, hp, ih]

theorem mapGetAppendSelf (m : List (Int × Nat)) {k : Int} (v : Nat) (hk : k ∉ mapKeys m) :
    mapGet (m ++ [(k, v)]) k = some v := by
  induction m with
  | nil => simp [mapGet_cons]
  | cons p t ih =>
    have hp : p.1 ≠ k := fun he => hk (by simp [mapKeys, he])
    have ht : k ∉ mapKeys t := fun hc => hk (by simp [mapKeys] at hc ⊢; tauto)
    simp [mapGet_cons, hp, ih ht]

theorem mapKeys_mapSet (m : List (Int × Nat)) (k : Int) (v : Nat) :
    mapKeys (mapSet m k v) = if k ∈ mapKeys m then mapKeys m else mapKeys m ++ [k] := by
  by_cases h : k ∈ mapKeys m
  · rw [if_pos h]
    simp only [mapSet, mapHas_iff.mpr h, if_true, mapKeys, List.map_map]
    apply List.map_congr_left
    intro p _
    by_cases hp : p.1 = k <;> simp [hp]
  · rw [if_neg h]
    have hh : ¬ mapHas m k = true := fun hc => h (mapHas_iff.mp hc)
    simp [mapSet, hh, mapKeys]

theorem mapGet_mapSet_self (m : List (Int × Nat)) (k : Int) (v : Nat) :
    mapGet (mapSet m k v) k = some v := by
  by_cases h : mapHas m k = true
  · simp only [mapSet, h, if_true]
    exact mapGetReplace m k v (mapHas_iff.mp h)
  · simp only [mapSet, h, if_false]
    exact mapGetAppendSelf m v (fun hc => h (mapHas_iff.mpr hc))

theorem mapGet_mapSet_ne (m : List (Int × Nat)) {k k' : Int} (v : Nat) (h : k' ≠ k) :
    mapGet (mapSet m k v) k' = mapGet m k' := by
  by_cases hh : mapHas m k = true <;> simp only [mapSet, hh, if_true, if_false]
  · exact mapGetReplaceNe m v h
  · exact mapGetAppendNe m v h

theorem mapKeys_mapDelete (m : List (Int × Nat)) (k : Int) :
    mapKeys (mapDelete m k) = (mapKeys m).filter (fun x => decide (x ≠ k)) := by
  induction m with
  | nil => rfl
  | cons p t ih =>
    by_cases hp : p.1 = k <;>
      simpa [mapDelete, mapKeys, List.filter_cons, hp] using ih

theorem mapGet_mapDelete_self (m : List (Int × Nat)) (k : Int) :
    mapGet (mapDelete m k) k = none := by
  rw [mapGet_eq_none_iff, mapKeys_mapDelete]
  simp

theorem mapGet_mapDelete_ne (m : List (Int × Nat)) {k k' : Int} (h : k' ≠ k) :
    mapGet (mapDelete m k) k' = mapGet m k' := by
  induction m with
  | nil => rfl
  | cons p t ih =>
    by_cases hp : p.1 = k
    · have hp' : p.1 ≠ k' := by rw [hp]; exact fun hc => h hc.symm
      rw [show mapDelete (p :: t) k = mapDelete t k by simp [mapDelete, List.filter_cons, hp]]
      rw [ih, mapGet_cons, if_neg hp']
    · rw [show mapDelete (p :: t) k = p :: mapDelete t k by simp [mapDelete, List.filter_cons, hp]]
      rw [mapGet_cons, mapGet_cons, ih]

theorem mapKeys_nodup_mapSet {m : List (Int × Nat)} {k : Int} {v : Nat}
    (h : (mapKeys m).Nodup) : (mapKeys (mapSet m k v)).Nodup := by
  rw [mapKeys_mapSet]
  by_cases hk : k ∈ mapKeys m <;> simp [hk, h, List.nodup_append]

theorem mapKeys_nodup_mapDelete {m : List (Int × Nat)} {k : Int}
    (h : (mapKeys m).Nodup) : (mapKeys (mapDelete m k)).Nodup := by
  rw [mapKeys_mapDelete]
  exact h.filter _

namespace FM

/-- Fixed widget environment: a widget is identified by a numeric id; its
tabStopIndex field and enabled flag are fixed data (the focus-manager claims
never mutate them).  This mirrors the Focusable components handed to
UIFocusManager. -/
structure Env where
  tabOf : Nat → Int
  enabledOf : Nat → Bool

/-- State of a UIFocusManager together with the per-widget focused flags and
manager back-references that its operations read and write.
components : the private Map from tabIndex to component,
cti : the private currentTabIndex field,
focusedIds : ids of widgets whose isFocused flag is true,
managed : ids of widgets whose setManager has been called (register does
this and unregister never severs it). -/
structure FMState where
  entries : List (Int × Nat)
  cti : Int
  focusedIds : List Nat
  managed : List Nat
  deriving Repr, DecidableEq

/-- The initial, empty focus manager: currentTabIndex starts at -1. -/
def fmInit : FMState := ⟨[], -1, [], []⟩

/-- The focused getter: components.get(currentTabIndex). -/
def fmFocused (s : FMState) : Option Nat := mapGet s.entries s.cti

/-- Widget focus(): guarded by the enabled flag; sets isFocused to true
(UIButton sets the flag unconditionally, the InteractiveUIComponent base
guards on it already being set, both leave the flag true). -/
def widgetFocus (env : Env) (s : FMState) (w : Nat) : FMState :=
  if env.enabledOf w then
    { s with focusedIds := if w ∈ s.focusedIds then s.focusedIds else w :: s.focusedIds }
  else s

/-- Widget loseFocus(): guarded by the enabled flag; clears isFocused. -/
def widgetLoseFocus (env : Env) (s : FMState) (w : Nat) : FMState :=
  if env.enabledOf w then { s with focusedIds := s.focusedIds.erase w } else s

/-- The focused?.loseFocus() optional call shared by setFocus and
clearFocus. -/
def losePrev (env : Env) (s : FMState) : FMState :=
  match fmFocused s with
  | some f => widgetLoseFocus env s f
  | none => s

/-- UIFocusManager.setFocus: early return when the component is already the
focused one, otherwise loseFocus on the previous, record the new
currentTabIndex, and call focus() on the component. -/
def setFocus (env : Env) (s : FMState) (w : Nat) : FMState :=
  if fmFocused s = some w then s
  else
    let s1 := losePrev env s
    let s2 := { s1 with cti := env.tabOf w }
    widgetFocus env s2 w

/-- UIFocusManager.clearFocus: loseFocus on the current component (if any)
and reset currentTabIndex to -1. -/
def clearFocus (env : Env) (s : FMState) : FMState :=
  { losePrev env s with cti := -1 }

/-- UIFocusManager.register for a single component: stores the component
under its tabStopIndex (overwriting any existing binding, after a console
warning that is not modelled) and sets the manager back-reference. -/
def register (env : Env) (s : FMState) (w : Nat) : FMState :=
  { s with entries := mapSet s.entries (env.tabOf w) w,
           managed := if w ∈ s.managed then s.managed else w :: s.managed }

/-- UIFocusManager.unregister for a single component: clears focus when the
current tab index equals the component tabStopIndex, then deletes the
binding.  The manager back-reference is NOT severed. -/
def unregister (env : Env) (s : FMState) (w : Nat) : FMState :=
  let s1 := if s.cti = env.tabOf w then clearFocus env s else s
  { s1 with entries := mapDelete s1.entries (env.tabOf w) }

/-- JS Array.prototype.indexOf: first index of x, or -1 when absent. -/
def jsIndexOf (l : List Int) (x : Int) : Int :=
  if x ∈ l then (l.indexOf x : Int) else -1

/-- The ascending sort of the Map keys performed by moveFocus
(Array.from(keys()).sort((a, b) => a - b)). -/
def sortedKeys (s : FMState) : List Int :=
  (mapKeys s.entries).insertionSort (· ≤ ·)

/-- UIFocusManager.moveFocus: with no registered component it returns; with
currentTabIndex -1 it picks the first (forward) or last (backward) sorted
key; otherwise it takes indexOf of the current index in the sorted keys and
steps cyclically; finally it calls setFocus on the component found at the
resulting key.  JS remainder agrees with emod for every dividend reachable
here, and indexOf yields -1 for a stale index just as in JS.  moveTarget is
the nextIndex computation of moveFocus, named so it can be reasoned about
separately. -/
def moveTarget (s : FMState) (forward : Bool) : Int :=
  let sorted := sortedKeys s
  let len : Int := (sorted.length : Int)
  if s.cti = -1 then
    if forward then sorted.headD 0 else sorted.getLastD 0
  else
    let pos : Int := jsIndexOf sorted s.cti
    if forward then sorted.getD ((pos + 1) % len).toNat 0
    else sorted.getD ((pos - 1 + len) % len).toNat 0

def moveFocus (env : Env) (s : FMState) (forward : Bool) : FMState :=
  if s.entries.isEmpty then s
  else
    match mapGet s.entries (moveTarget s forward) with
    | some w => setFocus env s w
    | none => s

/-- UIButton.onPointerDown restricted to its focus-manager effect: a
disabled widget returns early; otherwise, when a manager back-reference
exists, manager.setFocus(this) is called. -/
def pointerDown (env : Env) (s : FMState) (w : Nat) : FMState :=
  if env.enabledOf w then
    if w ∈ s.managed then setFocus env s w else s
  else s

/-- The operations a client can perform on a focus manager. -/
inductive FMOp where
  | register (w : Nat)
  | unregister (w : Nat)
  | setFocus (w : Nat)
  | clearFocus
  | moveFocus (forward : Bool)
  | pointerDown (w : Nat)
  deriving Repr, DecidableEq

def runOp (env : Env) (s : FMState) : FMOp → FMState
  | .register w => register env s w
  | .unregister w => unregister env s w
  | .setFocus w => setFocus env s w
  | .clearFocus => clearFocus env s
  | .moveFocus f => moveFocus env s f
  | .pointerDown w => pointerDown env s w

def run (env : Env) (s : FMState) : List FMOp → FMState
  | [] => s
  | op :: ops => run env (runOp env s op) ops

/-- Well-formedness of the components map: every binding was made by
register, so it maps a tabStopIndex to a widget having exactly that
tabStopIndex. -/
def wfEntries (env : Env) (s : FMState) : Prop :=
  ∀ p ∈ s.entries, env.tabOf p.2 = p.1

/-- Usage discipline under which the focus-manager invariants hold: setFocus
(also the one issued by a widget pointer-down) is only applied to a
currently registered component, and register never overwrites a different
component occupying the same tabStopIndex. -/
def SafeOp (env : Env) (s : FMState) : FMOp → Prop
  | .register w =>
      mapGet s.entries (env.tabOf w) = none ∨ mapGet s.entries (env.tabOf w) = some w
  | .setFocus w => mapGet s.entries (env.tabOf w) = some w
  | .pointerDown w =>
      env.enabledOf w = true → w ∈ s.managed → mapGet s.entries (env.tabOf w) = some w
  | _ => True

def SafeTrace (env : Env) (s : FMState) : List FMOp → Prop
  | [] => True
  | op :: ops => SafeOp env s op ∧ SafeTrace env (runOp env s op) ops

instance instDecSafeOp (env : Env) (s : FMState) : (op : FMOp) → Decidable (SafeOp env s op)
  | .register _ => inferInstanceAs (Decidable (_ ∨ _))
  | .unregister _ => inferInstanceAs (Decidable True)
  | .setFocus _ => inferInstanceAs (Decidable (_ = _))
  | .clearFocus => inferInstanceAs (Decidable True)
  | .moveFocus _ => inferInstanceAs (Decidable True)
  | .pointerDown _ => inferInstanceAs (Decidable (_ → _ → _ = _))

instance instDecSafeTrace (env : Env) (s : FMState) :
    (ops : List FMOp) → Decidable (SafeTrace env s ops)
  | [] => isTrue trivial
  | op :: ops =>
      @instDecidableAnd _ _ (instDecSafeOp env s op) (instDecSafeTrace env (runOp env s op) ops)

/-- The focus-manager invariant: the map is well formed with distinct keys,
the focused flags are held by at most pairwise-identical widgets (each
focused widget is registered at the current tab index), and currentTabIndex
is -1 or a present key. -/
def Inv (env : Env) (s : FMState) : Prop :=
  wfEntries env s ∧
  (mapKeys s.entries).Nodup ∧
  s.focusedIds.Nodup ∧
  (s.cti = -1 ∨ s.cti ∈ mapKeys s.entries) ∧
  (∀ id ∈ s.focusedIds,
    env.enabledOf id = true ∧ mapGet s.entries (env.tabOf id) = some id ∧ s.cti = env.tabOf id)

instance instDecWf (env : Env) (s : FMState) : Decidable (wfEntries env s) :=
  inferInstanceAs (Decidable (∀ p ∈ s.entries, _ = _))

instance instDecInv (env : Env) (s : FMState) : Decidable (Inv env s) :=
  inferInstanceAs (Decidable (_ ∧ _ ∧ _ ∧ _ ∧ _))

theorem focused_eq_of_mem (env : Env) (s : FMState)
    (hfoc : ∀ id ∈ s.focusedIds,
      env.enabledOf id = true ∧ mapGet s.entries (env.tabOf id) = some id ∧ s.cti = env.tabOf id)
    {id : Nat} (hid : id ∈ s.focusedIds) : fmFocused s = some id := by
  obtain ⟨_, hget, hcti⟩ := hfoc id hid
  unfold fmFocused
  rw [hcti, hget]

theorem losePrev_entries (env : Env) (s : FMState) : (losePrev env s).entries = s.entries := by
  unfold losePrev widgetLoseFocus
  cases fmFocused s
  · rfl
  · dsimp only
    split <;> rfl

theorem losePrev_cti (env : Env) (s : FMState) : (losePrev env s).cti = s.cti := by
  unfold losePrev widgetLoseFocus
  cases fmFocused s
  · rfl
  · dsimp only
    split <;> rfl

theorem losePrev_managed (env : Env) (s : FMState) : (losePrev env s).managed = s.managed := by
  unfold losePrev widgetLoseFocus
  cases fmFocused s
  · rfl
  · dsimp only
    split <;> rfl

theorem losePrev_focusedIds (env : Env) (s : FMState)
    (hnd : s.focusedIds.Nodup)
    (hfoc : ∀ id ∈ s.focusedIds,
      env.enabledOf id = true ∧ mapGet s.entries (env.tabOf id) = some id ∧ s.cti = env.tabOf id) :
    (losePrev env s).focusedIds = [] := by
  cases h : fmFocused s with
  | none =>
    have hnil : s.focusedIds = [] := by
      by_contra hne
      obtain ⟨id, hid⟩ := List.exists_mem_of_ne_nil _ hne
      have := focused_eq_of_mem env s hfoc hid
      rw [h] at this
      exact Option.noConfusion this
    simp [losePrev, h, hnil]
  | some f =>
    have hsub : ∀ id ∈ s.focusedIds, id = f := by
      intro id hid
      have := focused_eq_of_mem env s hfoc hid
      rw [h] at this
      exact (Option.some.inj this).symm
    by_cases he : env.enabledOf f = true
    · simp only [losePrev, h, widgetLoseFocus, he, if_true]
      apply List.eq_nil_iff_forall_not_mem.mpr
      intro x hx
      have hx' : x ∈ s.focusedIds := List.mem_of_mem_erase hx
      have hxf : x = f := hsub x hx'
      subst hxf
      exact hnd.not_mem_erase hx
    · have hnil : s.focusedIds = [] := by
        by_contra hne
        obtain ⟨id, hid⟩ := List.exists_mem_of_ne_nil _ hne
        have hidf : id = f := hsub id hid
        subst hidf
        exact he (hfoc id hid).1
      simp only [losePrev, h, widgetLoseFocus]
      rw [if_neg he]
      exact hnil

theorem inv_setFocus (env : Env) {s : FMState} {w : Nat} (hinv : Inv env s)
    (hsafe : mapGet s.entries (env.tabOf w) = some w) : Inv env (setFocus env s w) := by
  obtain ⟨hwf, hknd, hfnd, hcti, hfoc⟩ := hinv
  unfold setFocus
  by_cases h : fmFocused s = some w
  · rw [if_pos h]
    exact ⟨hwf, hknd, hfnd, hcti, hfoc⟩
  · rw [if_neg h]
    have he : (losePrev env s).entries = s.entries := losePrev_entries env s
    have hf : (losePrev env s).focusedIds = [] := losePrev_focusedIds env s hfnd hfoc
    by_cases hen : env.enabledOf w = true
    · simp only [widgetFocus, hen, if_true, he, hf]
      refine ⟨?_, ?_, ?_, ?_, ?_⟩
      · simpa [wfEntries, he] using hwf
      · simpa [he] using hknd
      · simp [hf]
      · exact Or.inr (by simpa [he] using mem_keys_of_get hsafe)
      · intro id hid
        simp [hf] at hid
        subst hid
        exact ⟨hen, by simpa [he] using hsafe, rfl⟩
    · simp only [widgetFocus, hen, if_false]
      refine ⟨?_, ?_, ?_, ?_, ?_⟩
      · simpa [wfEntries, he] using hwf
      · simpa [he] using hknd
      · simp [hf]
      · exact Or.inr (by simpa [he] using mem_keys_of_get hsafe)
      · intro id hid
        simp [hf] at hid

theorem inv_clearFocus (env : Env) {s : FMState} (hinv : Inv env s) :
    Inv env (clearFocus env s) := by
  obtain ⟨hwf, hknd, hfnd, hcti, hfoc⟩ := hinv
  have he : (losePrev env s).entries = s.entries := losePrev_entries env s
  have hf : (losePrev env s).focusedIds = [] := losePrev_focusedIds env s hfnd hfoc
  unfold clearFocus
  refine ⟨?_, ?_, ?_, ?_, ?_⟩
  · simpa [wfEntries, he] using hwf
  · simpa [he] using hknd
  · simp [hf]
  · exact Or.inl rfl
  · intro id hid
    simp [hf] at hid

theorem inv_register (env : Env) {s : FMState} {w : Nat} (hinv : Inv env s)
    (hsafe : mapGet s.entries (env.tabOf w) = none ∨ mapGet s.entries (env.tabOf w) = some w) :
    Inv env (register env s w) := by
  obtain ⟨hwf, hknd, hfnd, hcti, hfoc⟩ := hinv
  unfold register
  refine ⟨?_, ?_, ?_, ?_, ?_⟩
  · intro p hp
    rcases hmem : mapHas s.entries (env.tabOf w) with hb | hb
    all_goals {
      simp only [mapSet, hmem] at hp
      first
      | { simp only [Bool.false_eq_true, if_false, List.mem_append, List.mem_singleton] at hp
          rcases hp with hp | hp
          · exact hwf p hp
          · subst hp; rfl }
      | { simp only [if_true] at hp
          obtain ⟨q, hq, hqe⟩ := List.mem_map.mp hp
          by_cases hq1 : q.1 = env.tabOf w
          · simp [hq1] at hqe
            subst hqe
            rfl
          · simp [hq1] at hqe
            subst hqe
            exact hwf q hq }
    }
  · exact mapKeys_nodup_mapSet hknd
  · exact hfnd
  · rcases hcti with hm | hm
    · exact Or.inl hm
    · refine Or.inr ?_
      rw [mapKeys_mapSet]
      split <;> simp [hm]
  · intro id hid
    obtain ⟨hen, hget, hc⟩ := hfoc id hid
    refine ⟨hen, ?_, hc⟩
    by_cases htab : env.tabOf id = env.tabOf w
    · rcases hsafe with hnone | hsome
      · rw [htab] at hget
        rw [hget] at hnone
        exact Option.noConfusion hnone
      · rw [htab] at hget
        rw [hget] at hsome
        have hw : id = w := Option.some.inj hsome
        rw [htab, mapGet_mapSet_self, ← hw]
    · rw [mapGet_mapSet_ne _ _ htab]
      exact hget

theorem inv_unregister (env : Env) {s : FMState} (w : Nat) (hinv : Inv env s) :
    Inv env (unregister env s w) := by
  obtain ⟨hwf, hknd, hfnd, hcti, hfoc⟩ := hinv
  unfold unregister
  by_cases h : s.cti = env.tabOf w
  · rw [if_pos h]
    have hc := inv_clearFocus env ⟨hwf, hknd, hfnd, hcti, hfoc⟩
    obtain ⟨hwf1, hknd1, hfnd1, _, hfoc1⟩ := hc
    have hfnil : (clearFocus env s).focusedIds = [] := by
      unfold clearFocus
      exact losePrev_focusedIds env s hfnd hfoc
    refine ⟨?_, ?_, ?_, ?_, ?_⟩
    · intro p hp
      exact hwf1 p (List.mem_of_mem_filter hp)
    · exact mapKeys_nodup_mapDelete hknd1
    · simp [hfnil]
    · exact Or.inl (by unfold clearFocus; rfl)
    · intro id hid
      rw [hfnil] at hid
      simp at hid
  · rw [if_neg h]
    refine ⟨?_, ?_, ?_, ?_, ?_⟩
    · intro p hp
      exact hwf p (List.mem_of_mem_filter hp)
    · exact mapKeys_nodup_mapDelete hknd
    · exact hfnd
    · rcases hcti with hm | hm
      · exact Or.inl hm
      · refine Or.inr ?_
        rw [mapKeys_mapDelete]
        exact List.mem_filter.mpr ⟨hm, by simpa using h⟩
    · intro id hid
      obtain ⟨hen, hget, hc⟩ := hfoc id hid
      refine ⟨hen, ?_, hc⟩
      have htab : env.tabOf id ≠ env.tabOf w := fun hc2 => h (hc.trans hc2)
      rw [mapGet_mapDelete_ne _ htab]
      exact hget

theorem inv_moveFocus (env : Env) {s : FMState} (f : Bool) (hinv : Inv env s) :
    Inv env (moveFocus env s f) := by
  unfold moveFocus
  split
  · exact hinv
  · cases hg : mapGet s.entries (moveTarget s f) with
    | none => exact hinv
    | some w =>
      apply inv_setFocus env hinv
      have hmem := mapGet_eq_some_mem hg
      have htab : env.tabOf w = moveTarget s f := hinv.1 _ hmem
      rw [htab]
      exact hg

theorem inv_pointerDown (env : Env) {s : FMState} {w : Nat} (hinv : Inv env s)
    (hsafe : env.enabledOf w = true → w ∈ s.managed → mapGet s.entries (env.tabOf w) = some w) :
    Inv env (pointerDown env s w) := by
  unfold pointerDown
  by_cases hen : env.enabledOf w = true
  · rw [if_pos hen]
    by_cases hm : w ∈ s.managed
    · rw [if_pos hm]
      exact inv_setFocus env hinv (hsafe hen hm)
    · rw [if_neg hm]
      exact hinv
  · rw [if_neg hen]
    exact hinv

theorem inv_runOp (env : Env) {s : FMState} {op : FMOp} (hinv : Inv env s)
    (hsafe : SafeOp env s op) : Inv env (runOp env s op) := by
  cases op with
  | register w => exact inv_register env hinv hsafe
  | unregister w => exact inv_unregister env w hinv
  | setFocus w => exact inv_setFocus env hinv hsafe
  | clearFocus => exact inv_clearFocus env hinv
  | moveFocus f => exact inv_moveFocus env f hinv
  | pointerDown w => exact inv_pointerDown env hinv hsafe

theorem inv_run (env : Env) {s : FMState} {ops : List FMOp} (hinv : Inv env s)
    (hsafe : SafeTrace env s ops) : Inv env (run env s ops) := by
  induction ops generalizing s with
  | nil => exact hinv
  | cons op ops ih =>
    obtain ⟨h1, h2⟩ := hsafe
    exact ih (inv_runOp env hinv h1) h2

theorem inv_init (env : Env) : Inv env fmInit := by
  refine ⟨?_, ?_, ?_, Or.inl rfl, ?_⟩ <;> simp [fmInit, wfEntries, mapKeys]

theorem inv_at_most_one_focused (env : Env) {s : FMState} (hinv : Inv env s)
    {a b : Nat} (ha : a ∈ s.focusedIds) (hb : b ∈ s.focusedIds) : a = b := by
  have h1 := focused_eq_of_mem env s hinv.2.2.2.2 ha
  have h2 := focused_eq_of_mem env s hinv.2.2.2.2 hb
  rw [h1] at h2
  exact Option.some.inj h2

theorem headD_mem {l : List Int} (h : l ≠ []) (d : Int) : l.headD d ∈ l := by
  cases l with
  | nil => exact absurd rfl h
  | cons a t => simp

theorem getLastD_mem {l : List Int} (h : l ≠ []) (d : Int) : l.getLastD d ∈ l := by
  induction l generalizing d with
  | nil => exact absurd rfl h
  | cons a t ih =>
    rw [List.getLastD_cons]
    cases t with
    | nil => simp [List.getLastD]
    | cons b t2 => exact List.mem_cons_of_mem a (ih (by simp) a)

theorem getD_mem {l : List Int} {n : Nat} (d : Int) (h : n < l.length) : l.getD n d ∈ l := by
  rw [List.getD_eq_getElem?_getD, List.getElem?_eq_getElem h]
  exact List.getElem_mem h

theorem sorted_headD_le {l : List Int} (hs : l.Sorted (· ≤ ·)) {x : Int} (hx : x ∈ l) (d : Int) :
    l.headD d ≤ x := by
  cases l with
  | nil => cases hx
  | cons a t =>
    simp only [List.headD_cons]
    rcases List.mem_cons.mp hx with h | h
    · exact le_of_eq h.symm
    · exact (List.sorted_cons.mp hs).1 x h

theorem sorted_le_getLastD :
    ∀ {l : List Int}, l.Sorted (· ≤ ·) → ∀ {x : Int}, x ∈ l → ∀ d : Int, x ≤ l.getLastD d := by
  intro l
  induction l with
  | nil => intro _ x hx; cases hx
  | cons a t ih =>
    intro hs x hx d
    rw [List.getLastD_cons]
    have hst := (List.sorted_cons.mp hs).2
    rcases List.mem_cons.mp hx with h | h
    · subst h
      cases t with
      | nil => simp [List.getLastD]
      | cons b t2 =>
        have hab : x ≤ b := (List.sorted_cons.mp hs).1 b (by simp)
        exact le_trans hab (ih hst (by simp) x)
    · exact ih hst h a

/-- The moveFocus nextIndex computation written exactly as the specification
describes it: with no focus the first or last entry of the ascending-sorted
index list, otherwise position+1 mod count or position-1+count mod count of
the current position. -/
def moveFocusSpecTarget (s : FMState) (forward : Bool) : Int :=
  let sorted := sortedKeys s
  let n := sorted.length
  if s.cti = -1 then
    if forward then sorted.headD 0 else sorted.getLastD 0
  else
    let p := sorted.indexOf s.cti
    if forward then sorted.getD ((p + 1) % n) 0
    else sorted.getD ((p + n - 1) % n) 0

theorem sortedKeys_perm (s : FMState) : (sortedKeys s).Perm (mapKeys s.entries) :=
  List.perm_insertionSort _ _

theorem sortedKeys_sorted (s : FMState) : (sortedKeys s).Sorted (· ≤ ·) :=
  List.sorted_insertionSort _ _

theorem moveTarget_eq_spec (s : FMState) (forward : Bool)
    (hcti : s.cti = -1 ∨ s.cti ∈ mapKeys s.entries) :
    moveTarget s forward = moveFocusSpecTarget s forward := by
  unfold moveTarget moveFocusSpecTarget
  by_cases hc : s.cti = -1
  · simp [hc]
  · rw [if_neg hc, if_neg hc]
    have hmem : s.cti ∈ sortedKeys s := (sortedKeys_perm s).mem_iff.mpr (hcti.resolve_left hc)
    have hidx : jsIndexOf (sortedKeys s) s.cti = ((sortedKeys s).indexOf s.cti : Int) := by
      unfold jsIndexOf
      rw [if_pos hmem]
    have hlen : 0 < (sortedKeys s).length := List.length_pos.mpr (List.ne_nil_of_mem hmem)
    rw [hidx]
    cases forward with
    | true =>
      simp only [if_true]
      congr 1
    | false =>
      simp only [Bool.false_eq_true, if_false]
      congr 1
      have h1 : (((sortedKeys s).indexOf s.cti : Int) - 1 + ((sortedKeys s).length : Int)) =
          (((sortedKeys s).indexOf s.cti + (sortedKeys s).length - 1 : ℕ) : ℤ) := by
        have hge : 1 ≤ (sortedKeys s).indexOf s.cti + (sortedKeys s).length := by omega
        push_cast [hge]
        try ring
      rw [h1, ← Int.natCast_mod, Int.toNat_natCast]

theorem specTarget_mem_keys (s : FMState) (forward : Bool) (hne : s.entries ≠ []) :
    moveFocusSpecTarget s forward ∈ mapKeys s.entries := by
  have hkne : mapKeys s.entries ≠ [] := by
    intro hcon
    exact hne (List.map_eq_nil_iff.mp hcon)
  have hperm := sortedKeys_perm s
  have hsne : sortedKeys s ≠ [] := by
    intro hcon
    rw [hcon] at hperm
    exact hkne hperm.symm.eq_nil
  have hlen : 0 < (sortedKeys s).length := List.length_pos.mpr hsne
  unfold moveFocusSpecTarget
  by_cases hc : s.cti = -1
  · rw [if_pos hc]
    cases forward with
    | true => exact hperm.mem_iff.mp (headD_mem hsne 0)
    | false => exact hperm.mem_iff.mp (getLastD_mem hsne 0)
  · rw [if_neg hc]
    cases forward with
    | true => exact hperm.mem_iff.mp (getD_mem 0 (Nat.mod_lt _ hlen))
    | false => exact hperm.mem_iff.mp (getD_mem 0 (Nat.mod_lt _ hlen))

theorem setFocus_cti (env : Env) (s : FMState) (w : Nat) (hwf : wfEntries env s) :
    (setFocus env s w).cti = env.tabOf w := by
  unfold setFocus
  by_cases h : fmFocused s = some w
  · rw [if_pos h]
    unfold fmFocused at h
    exact (hwf _ (mapGet_eq_some_mem h)).symm
  · rw [if_neg h]
    unfold widgetFocus
    dsimp only
    split <;> rfl

theorem setFocus_entries (env : Env) (s : FMState) (w : Nat) :
    (setFocus env s w).entries = s.entries := by
  unfold setFocus
  by_cases h : fmFocused s = some w
  · rw [if_pos h]
  · rw [if_neg h]
    unfold widgetFocus
    dsimp only
    split
    · exact losePrev_entries env s
    · exact losePrev_entries env s

/-- The weaker usage discipline under which the registry invariant alone
holds: setFocus (also the widget pointer-down path) is only applied to a
currently registered component.  Duplicate-index (last-wins) registration
is allowed. -/
def SafeOpReg (env : Env) (s : FMState) : FMOp → Prop
  | .setFocus w => mapGet s.entries (env.tabOf w) = some w
  | .pointerDown w =>
      env.enabledOf w = true → w ∈ s.managed → mapGet s.entries (env.tabOf w) = some w
  | _ => True

def SafeTraceReg (env : Env) (s : FMState) : List FMOp → Prop
  | [] => True
  | op :: ops => SafeOpReg env s op ∧ SafeTraceReg env (runOp env s op) ops

instance instDecSafeOpReg (env : Env) (s : FMState) : (op : FMOp) → Decidable (SafeOpReg env s op)
  | .register _ => inferInstanceAs (Decidable True)
  | .unregister _ => inferInstanceAs (Decidable True)
  | .setFocus _ => inferInstanceAs (Decidable (_ = _))
  | .clearFocus => inferInstanceAs (Decidable True)
  | .moveFocus _ => inferInstanceAs (Decidable True)
  | .pointerDown _ => inferInstanceAs (Decidable (_ → _ → _ = _))

instance instDecSafeTraceReg (env : Env) (s : FMState) :
    (ops : List FMOp) → Decidable (SafeTraceReg env s ops)
  | [] => isTrue trivial
  | op :: ops =>
      @instDecidableAnd _ _ (instDecSafeOpReg env s op)
        (instDecSafeTraceReg env (runOp env s op) ops)

/-- The registry invariant on its own (no focused-flag component): a
well-formed entries map with distinct keys, and currentTabIndex -1 or a
present key.  Preserved without any condition on register. -/
def InvReg (env : Env) (s : FMState) : Prop :=
  wfEntries env s ∧ (mapKeys s.entries).Nodup ∧
    (s.cti = -1 ∨ s.cti ∈ mapKeys s.entries)

instance instDecInvReg (env : Env) (s : FMState) : Decidable (InvReg env s) :=
  inferInstanceAs (Decidable (_ ∧ _ ∧ _))

theorem invreg_setFocus (env : Env) {s : FMState} {w : Nat} (hinv : InvReg env s)
    (hsafe : mapGet s.entries (env.tabOf w) = some w) : InvReg env (setFocus env s w) := by
  obtain ⟨hwf, hknd, _⟩ := hinv
  have hent := setFocus_entries env s w
  refine ⟨?_, ?_, ?_⟩
  · intro p hp
    rw [hent] at hp
    exact hwf p hp
  · rw [hent]
    exact hknd
  · refine Or.inr ?_
    rw [setFocus_cti env s w hwf, hent]
    exact mem_keys_of_get hsafe

theorem invreg_clearFocus (env : Env) {s : FMState} (hinv : InvReg env s) :
    InvReg env (clearFocus env s) := by
  obtain ⟨hwf, hknd, _⟩ := hinv
  have hent : (clearFocus env s).entries = s.entries := by
    unfold clearFocus
    exact losePrev_entries env s
  refine ⟨?_, ?_, Or.inl rfl⟩
  · intro p hp
    rw [hent] at hp
    exact hwf p hp
  · rw [hent]
    exact hknd

theorem invreg_register (env : Env) {s : FMState} (w : Nat) (hinv : InvReg env s) :
    InvReg env (register env s w) := by
  obtain ⟨hwf, hknd, hcti⟩ := hinv
  unfold register
  refine ⟨?_, mapKeys_nodup_mapSet hknd, ?_⟩
  · intro p hp
    rcases hmem : mapHas s.entries (env.tabOf w) with hb | hb
    all_goals {
      simp only [mapSet, hmem] at hp
      first
      | { simp only [Bool.false_eq_true, if_false, List.mem_append, List.mem_singleton] at hp
          rcases hp with hp | hp
          · exact hwf p hp
          · subst hp; rfl }
      | { simp only [if_true] at hp
          obtain ⟨q, hq, hqe⟩ := List.mem_map.mp hp
          by_cases hq1 : q.1 = env.tabOf w
          · simp [hq1] at hqe
            subst hqe
            rfl
          · simp [hq1] at hqe
            subst hqe
            exact hwf q hq }
    }
  · rcases hcti with hm | hm
    · exact Or.inl hm
    · refine Or.inr ?_
      rw [mapKeys_mapSet]
      split <;> simp [hm]

theorem invreg_unregister (env : Env) {s : FMState} (w : Nat) (hinv : InvReg env s) :
    InvReg env (unregister env s w) := by
  obtain ⟨hwf, hknd, hcti⟩ := hinv
  unfold unregister
  by_cases h : s.cti = env.tabOf w
  · rw [if_pos h]
    obtain ⟨hwf1, hknd1, _⟩ := invreg_clearFocus env ⟨hwf, hknd, hcti⟩
    refine ⟨?_, mapKeys_nodup_mapDelete hknd1, ?_⟩
    · intro p hp
      exact hwf1 p (List.mem_of_mem_filter hp)
    · exact Or.inl (by unfold clearFocus; rfl)
  · rw [if_neg h]
    refine ⟨?_, mapKeys_nodup_mapDelete hknd, ?_⟩
    · intro p hp
      exact hwf p (List.mem_of_mem_filter hp)
    · rcases hcti with hm | hm
      · exact Or.inl hm
      · refine Or.inr ?_
        rw [mapKeys_mapDelete]
        exact List.mem_filter.mpr ⟨hm, by simpa using h⟩

theorem invreg_moveFocus (env : Env) {s : FMState} (f : Bool) (hinv : InvReg env s) :
    InvReg env (moveFocus env s f) := by
  unfold moveFocus
  split
  · exact hinv
  · cases hg : mapGet s.entries (moveTarget s f) with
    | none => exact hinv
    | some w =>
      apply invreg_setFocus env hinv
      have hmem := mapGet_eq_some_mem hg
      have htab : env.tabOf w = moveTarget s f := hinv.1 _ hmem
      rw [htab]
      exact hg

theorem invreg_pointerDown (env : Env) {s : FMState} {w : Nat} (hinv : InvReg env s)
    (hsafe : env.enabledOf w = true → w ∈ s.managed → mapGet s.entries (env.tabOf w) = some w) :
    InvReg env (pointerDown env s w) := by
  unfold pointerDown
  by_cases hen : env.enabledOf w = true
  · rw [if_pos hen]
    by_cases hm : w ∈ s.managed
    · rw [if_pos hm]
      exact invreg_setFocus env hinv (hsafe hen hm)
    · rw [if_neg hm]
      exact hinv
  · rw [if_neg hen]
    exact hinv

theorem invreg_runOp (env : Env) {s : FMState} {op : FMOp} (hinv : InvReg env s)
    (hsafe : SafeOpReg env s op) : InvReg env (runOp env s op) := by
  cases op with
  | register w => exact invreg_register env w hinv
  | unregister w => exact invreg_unregister env w hinv
  | setFocus w => exact invreg_setFocus env hinv hsafe
  | clearFocus => exact invreg_clearFocus env hinv
  | moveFocus f => exact invreg_moveFocus env f hinv
  | pointerDown w => exact invreg_pointerDown env hinv hsafe

theorem invreg_run (env : Env) {s : FMState} {ops : List FMOp} (hinv : InvReg env s)
    (hsafe : SafeTraceReg env s ops) : InvReg env (run env s ops) := by
  induction ops generalizing s with
  | nil => exact hinv
  | cons op ops ih =>
    obtain ⟨h1, h2⟩ := hsafe
    exact ih (invreg_runOp env hinv h1) h2

theorem invreg_init (env : Env) : InvReg env fmInit := by
  refine ⟨?_, ?_, Or.inl rfl⟩ <;> simp [fmInit, wfEntries, mapKeys]

end FM

namespace BTN

/-- The four visual states of UIButton. -/
inductive BState where
  | idle
  | hovered
  | pressed
  | disabled
  deriving Repr, DecidableEq

/-- Events emitted by UIButton (UIButtonDown, UIButtonUp, UIButtonClicked,
UIButtonHovered, UIButtonUnhovered, UIButtonFocused, UIButtonUnfocused,
UIButtonEnabled, UIButtonDisabled). -/
inductive BEvent where
  | down
  | up
  | clicked
  | hoveredEv
  | unhoveredEv
  | focusedEv
  | unfocusedEv
  | enabledEv
  | disabledEv
  deriving Repr, DecidableEq

/-- The UIButton fields the interaction logic reads and writes, plus the log
of events emitted so far.  The focus-manager interaction of onPointerDown is
modelled separately in the FM namespace. -/
structure Button where
  enabled : Bool := true
  bstate : BState := .idle
  isHovered : Bool := false
  isPressed : Bool := false
  isFocused : Bool := false
  ignoreLeave : Bool := false
  events : List BEvent := []
  deriving Repr, DecidableEq

def emitB (b : Button) (e : BEvent) : Button :=
  { b with events := b.events ++ [e] }

/-- UIButton.updateState: disabled wins, then pressed, then hovered, else
idle. -/
def updateState (b : Button) : Button :=
  if ¬ b.enabled then { b with bstate := .disabled }
  else if b.isPressed then { b with bstate := .pressed }
  else if b.isHovered then { b with bstate := .hovered }
  else { b with bstate := .idle }

/-- UIButton.onHover. -/
def onHover (b : Button) : Button :=
  if ¬ b.enabled then b
  else updateState (emitB { b with isHovered := true } .hoveredEv)

/-- UIButton.onUnhover: ignores the leave while ignoreLeave is set (the 50 ms
window after a pointer-up); otherwise emits Unhovered and clears the flag. -/
def onUnhover (b : Button) : Button :=
  if ¬ b.enabled then b
  else if b.ignoreLeave then b
  else updateState { emitB b .unhoveredEv with isHovered := false }

/-- UIButton.focus. -/
def focusB (b : Button) : Button :=
  if ¬ b.enabled then b
  else updateState (emitB { b with isFocused := true } .focusedEv)

/-- UIButton.loseFocus. -/
def loseFocusB (b : Button) : Button :=
  if ¬ b.enabled then b
  else updateState (emitB { b with isFocused := false } .unfocusedEv)

/-- UIButton.onPointerDown (its manager.setFocus call is the FM.pointerDown
transition). -/
def onPointerDown (b : Button) : Button :=
  if ¬ b.enabled then b
  else updateState (emitB { b with isPressed := true } .down)

/-- UIButton.onClick (the pointerup handler): records wasPressed, clears
isPressed, arms ignoreLeave (its timeout clearing is a separate transition
not needed by the claims), updates state, emits Up, and emits Clicked only
when wasPressed and still hovered. -/
def onClick (b : Button) : Button :=
  if ¬ b.enabled then b
  else
    let wasPressed := b.isPressed
    let b2 := emitB (updateState { b with isPressed := false, ignoreLeave := true }) .up
    if wasPressed ∧ b2.isHovered then emitB b2 .clicked else b2

/-- UIComponent.setEnabled specialised with UIButton's onEnabled/onDisabled
hooks: flips the flag only on change; onDisabled clears isHovered and
isFocused (NOT isPressed) and emits Disabled; onEnabled emits Enabled. -/
def componentSetEnabled (b : Button) (v : Bool) : Button :=
  if v = b.enabled then b
  else
    let b1 := { b with enabled := v }
    if v then emitB b1 .enabledEv
    else emitB { b1 with isHovered := false, isFocused := false } .disabledEv

/-- InteractiveUIComponent.setEnabled: loseFocus first when disabling a
focused widget, then the base setEnabled. -/
def interactiveSetEnabled (b : Button) (v : Bool) : Button :=
  if v = b.enabled then b
  else
    let b1 := if ¬ v ∧ b.isFocused then loseFocusB b else b
    componentSetEnabled b1 v

/-- UIButton.setEnabled: super.setEnabled followed by updateState. -/
def setEnabled (b : Button) (v : Bool) : Button :=
  updateState (interactiveSetEnabled b v)

/-- A freshly constructed enabled idle button. -/
def btn0 : Button := {}

/-- Hovered and pressed: pointer entered then pointer down. -/
def btnHP : Button := onPointerDown (onHover btn0)

end BTN

namespace RG

/-- UIRadioGroupChanged events (selectedIndex and previousIndex fields). -/
inductive RGEvent where
  | changed (selectedIndex : Int) (previousIndex : Int)
  deriving Repr, DecidableEq

/-- A UIRadioGroup together with its member checkboxes: members are
identified by their position in the insertion order, checks holds each real
UICheckbox's private checked flag.  The emitter wiring is synchronous: the
checkbox checked setter fires UICheckboxChanged, which runs the group's
handleCheckboxChanged listener re-entrantly; the fuel parameter of the
functions below bounds that re-entrancy depth (the recursion terminates in
the source after at most three nested callbacks, so any generous fuel
computes the same fixpoint). -/
structure RGState where
  checks : List Bool
  selIdx : Int
  allowDeselect : Bool
  events : List RGEvent
  deriving Repr, DecidableEq

/-- An empty group as built by the constructor (name omitted). -/
def rgInit (allowDeselect : Bool) (selectedIndex : Int) : RGState :=
  ⟨[], selectedIndex, allowDeselect, []⟩

/-- The four mutually re-entrant procedures of the group/checkbox system.
A JS call stack frame is one of these; rgStep interprets a call with a fuel
bound on the re-entrancy depth (structural recursion on fuel, so concrete
runs evaluate in the kernel). -/
inductive RGCall where
  | setChecked (i : Nat) (v : Bool)
  | handleChanged (i : Nat) (checked : Bool)
  | select (i : Nat)
  | deselect

/-- One interpreter for the four procedures.

setChecked i v is the UICheckbox set checked(value) setter: no-op when
unchanged, otherwise it writes the flag and emits UICheckboxChanged, which
synchronously runs the group listener handleChanged for this member.

handleChanged is UIRadioGroup.handleCheckboxChanged: member lookup
(indexOf, -1 when removed), select on check; on uncheck either deselect
(when allowed and it was the selected one) or force the flag back to true.

select is UIRadioGroup.select: bounds check, early return when already
selected, uncheck the previous member through its checked setter
(re-entrant!), then record and check the new member and emit
UIRadioGroupChanged.

deselect is UIRadioGroup.deselect: only under allowDeselect, unchecks the
selected member, resets the selection to -1 and emits
UIRadioGroupChanged. -/
def rgStep : Nat → RGState → RGCall → RGState :=
  Nat.rec (fun s _ => s)
    (fun _ rec s c =>
      match c with
      | .setChecked i v =>
        if s.checks.getD i false = v then s
        else rec { s with checks := s.checks.set i v } (.handleChanged i v)
      | .handleChanged i checked =>
        if s.checks.length ≤ i then s
        else if checked then rec s (.select i)
        else if s.allowDeselect ∧ (i : Int) = s.selIdx then rec s .deselect
        else rec s (.setChecked i true)
      | .select i =>
        if s.checks.length ≤ i then s
        else if s.selIdx = (i : Int) then s
        else
          let prev := s.selIdx
          let s1 := if 0 ≤ prev ∧ prev < (s.checks.length : Int)
            then rec s (.setChecked prev.toNat false) else s
          let s2 := { s1 with selIdx := (i : Int) }
          let s3 := rec s2 (.setChecked i true)
          { s3 with events := s3.events ++ [.changed (i : Int) prev] }
      | .deselect =>
        if ¬ s.allowDeselect then s
        else if s.selIdx = -1 then s
        else
          let prev := s.selIdx
          let s1 := if 0 ≤ prev ∧ prev < (s.checks.length : Int)
            then rec s (.setChecked prev.toNat false) else s
          let s2 := { s1 with selIdx := -1 }
          { s2 with events := s2.events ++ [.changed (-1) prev] })

/-- UICheckbox set checked(value) at re-entrancy bound fuel. -/
def setChecked (fuel : Nat) (s : RGState) (i : Nat) (v : Bool) : RGState :=
  rgStep fuel s (.setChecked i v)

/-- UIRadioGroup.select at re-entrancy bound fuel. -/
def select (fuel : Nat) (s : RGState) (i : Nat) : RGState :=
  rgStep fuel s (.select i)

/-- UIRadioGroup.add for a new member whose checkbox has initial checked
flag c0: pushes the member, hooks the listener, then applies the
initial-state rules (each checked assignment goes through the setter). -/
def add (fuel : Nat) (s : RGState) (c0 : Bool) : RGState :=
  let s1 := { s with checks := s.checks ++ [c0] }
  let i := s.checks.length
  if (i : Int) = s1.selIdx then setChecked fuel s1 i true
  else if s1.checks.getD i false then select fuel s1 i
  else setChecked fuel s1 i false

/-- Number of members whose checked flag is true. -/
def countChecked (s : RGState) : Nat :=
  (s.checks.filter (fun b => b)).length

/-- Default group (allowDeselect = false, no initial selection) with two
unchecked members, after the user checks member 0 (a click toggles through
the checked setter). -/
def rgSel0 (fuel : Nat) : RGState :=
  setChecked fuel (add fuel (add fuel (rgInit false (-1)) false) false) 0 true

/-- The same group after the user then checks member 1. -/
def rgCex (fuel : Nat) : RGState :=
  setChecked fuel (rgSel0 fuel) 1 true

end RG

namespace NUM

/-- UINumeric number-format options after the default merge: decimals is
format.decimals ?? 2 resolved; thousandsSeparator, prefixStr and suffixStr
are checked by JS truthiness in the source, so the empty string stands for
absent; decimalSepOpt keeps the nullish check of format.decimalSeparator ??
".".  The exponential options (disabled in the default config) are outside
this slice. -/
structure NumFormat where
  decimals : Nat
  thousandsSeparator : String
  decimalSepOpt : Option String
  prefixStr : String
  suffixStr : String
  deriving Repr, DecidableEq

/-- The formatOptions of defaultNumericConfig. -/
def defaultFormat : NumFormat := ⟨2, ",", some ".", "", ""⟩

/-- Events emitted by UINumeric that the claims mention. -/
inductive NEvent where
  | valueChanged (v : ℚ)
  | submit (v : ℚ)
  | focusedEv
  deriving Repr, DecidableEq

/-- ASCII whitespace recognised by the modelled trim/parseFloat. -/
def isWs (c : Char) : Bool :=
  c = ' ' ∨ c = '\t' ∨ c = '\n' ∨ c = '\r'

/-- Splitting engine over character lists (fuel bounded by the input length,
so the kernel can evaluate it): the semantics of String.split with a
non-empty string separator. -/
def splitGo (sep : List Char) : Nat → List Char → List Char → List (List Char)
  | 0, cs, acc => [acc.reverse ++ cs]
  | f + 1, cs, acc =>
    match cs with
    | [] => [acc.reverse]
    | c :: t =>
      if sep ≠ [] ∧ sep.isPrefixOf (c :: t) then
        acc.reverse :: splitGo sep f ((c :: t).drop sep.length) []
      else splitGo sep f t (c :: acc)

/-- JS String.prototype.split with a string separator (callers only pass a
non-empty separator). -/
def splitOnS (s sep : String) : List String :=
  if sep = "" then [s]
  else (splitGo sep.toList (s.toList.length + 1) s.toList []).map (fun l => String.mk l)

/-- JS String.prototype.trim (ASCII whitespace slice). -/
def trimS (s : String) : String :=
  String.mk (((s.toList.dropWhile (isWs ·)).reverse.dropWhile (isWs ·)).reverse)

/-- Numeric value of a digit list (most significant first). -/
def digitsToNat (cs : List Char) : Nat :=
  cs.foldl (fun a c => a * 10 + (c.toNat - 48)) 0

/-- JS parseFloat on the decimal grammar sign digits [. digits] [e/E sign
digits]: longest valid prefix, none for NaN.  The rational value
sign * (ip + fp / 10^k) * 10^e is constructed through mkRat on Nat/Int
arithmetic (the kernel cannot reduce the Rat field operations).  The
Infinity literal is outside this slice (no modelled flow produces it). -/
def jsParseFloat (s : String) : Option ℚ :=
  let cs0 := s.toList.dropWhile (fun c => c = ' ' ∨ c = '\t' ∨ c = '\n' ∨ c = '\r')
  let signAndRest : Int × List Char :=
    match cs0 with
    | '-' :: r => (-1, r)
    | '+' :: r => (1, r)
    | _ => (1, cs0)
  let sign := signAndRest.1
  let cs1 := signAndRest.2
  let ip := cs1.takeWhile Char.isDigit
  let cs2 := cs1.dropWhile Char.isDigit
  let fracAndRest : List Char × List Char :=
    match cs2 with
    | '.' :: r => (r.takeWhile Char.isDigit, r.dropWhile Char.isDigit)
    | _ => ([], cs2)
  let fp := fracAndRest.1
  let cs3 := fracAndRest.2
  if ip.isEmpty ∧ fp.isEmpty then none
  else
    let k := fp.length
    let mantissa : Int := sign * ((digitsToNat ip : Int) * (10 : Int) ^ k + (digitsToNat fp : Int))
    let expVal : Option Int :=
      match cs3 with
      | c :: r =>
        if c = 'e' ∨ c = 'E' then
          let esAndRest : Int × List Char :=
            match r with
            | '-' :: rr => (-1, rr)
            | '+' :: rr => (1, rr)
            | _ => (1, r)
          let ed := esAndRest.2.takeWhile Char.isDigit
          if ed.isEmpty then none else some (esAndRest.1 * (digitsToNat ed : Int))
        else none
      | [] => none
    match expVal with
    | some e =>
      if 0 ≤ e then some (mkRat (mantissa * (10 : Int) ^ e.toNat) ((10 : Nat) ^ k))
      else some (mkRat mantissa ((10 : Nat) ^ k * (10 : Nat) ^ (-e).toNat))
    | none => some (mkRat mantissa ((10 : Nat) ^ k))

/-- JS Number.prototype.toFixed(d): round the absolute value half away from
zero at d decimal places and re-attach the sign (ECMA: s is extracted
first, ties pick the larger n).  round(|v| * 10^d) = floor(|v| * 10^d + 1/2)
is computed as (2 * |num| * 10^d + den) / (2 * den) in Nat arithmetic,
since the kernel cannot reduce the Rat field operations. -/
def toFixed (d : Nat) (v : ℚ) : String :=
  let neg := v < 0
  let scaled : Nat := (2 * v.num.natAbs * 10 ^ d + v.den) / (2 * v.den)
  let p : Nat := 10 ^ d
  let frS := toString (scaled % p)
  let frPad := String.mk (List.replicate (d - frS.length) '0') ++ frS
  (if neg then "-" else "") ++ toString (scaled / p) ++
    (if d = 0 then "" else "." ++ frPad)

/-- The thousands-separator regex replace of formatNumber
(intPart.replace of \B lookahead groups of three digits): inserts sep after
a digit whenever a positive multiple of three digits remains, skipping the
sign position. -/
def insertSeps (sep : String) (s : String) : String :=
  let signAndDigits : String × List Char :=
    match s.toList with
    | '-' :: rest => ("-", rest)
    | l => ("", l)
  let cs := signAndDigits.2
  let n := cs.length
  signAndDigits.1 ++
    String.join (cs.enum.map (fun ic =>
      let rest := n - 1 - ic.1
      if 0 < rest ∧ rest % 3 = 0 then String.mk [ic.2] ++ sep else String.mk [ic.2]))

/-- UINumeric.formatNumber (non-exponential path): toFixed, split at the
dot, thousands separators into the integer part, custom decimal separator,
prefix and suffix.  The isNaN guard cannot fire over ℚ. -/
def formatNumber (fmt : NumFormat) (v : ℚ) : String :=
  let formatted := toFixed fmt.decimals v
  let parts := splitOnS formatted "."
  let intPart0 := parts.headD ""
  let decPart := parts.getD 1 ""
  let intPart :=
    if fmt.thousandsSeparator ≠ "" then insertSeps fmt.thousandsSeparator intPart0
    else intPart0
  let decSep := fmt.decimalSepOpt.getD "."
  let f2 := if decPart ≠ "" then intPart ++ decSep ++ decPart else intPart
  let f3 := if fmt.prefixStr ≠ "" then fmt.prefixStr ++ f2 else f2
  if fmt.suffixStr ≠ "" then f3 ++ fmt.suffixStr else f3

/-- JS String.prototype.replace with a plain string pattern: first
occurrence only (callers pass a truthy pattern). -/
def replaceFirst (s pat : String) : String :=
  match splitOnS s pat with
  | [] => s
  | [x] => x
  | x :: rest => x ++ String.intercalate pat rest

/-- UINumeric.parseNumber: strip prefix and suffix (first occurrence, when
truthy), remove every thousands separator, trim, parseFloat. -/
def parseNumber (fmt : NumFormat) (text : String) : Option ℚ :=
  let c1 := if fmt.prefixStr ≠ "" then replaceFirst text fmt.prefixStr else text
  let c2 := if fmt.suffixStr ≠ "" then replaceFirst c1 fmt.suffixStr else c1
  let c3 :=
    if fmt.thousandsSeparator ≠ "" then
      String.intercalate "" (splitOnS c2 fmt.thousandsSeparator)
    else c2
  jsParseFloat (trimS c3)

/-- UINumeric.clampValue: Math.max(min, Math.min(max, value)) with the
defaults min = -Infinity (none) and max = Infinity (none) absorbed. -/
def clampValue (cfgMin cfgMax : Option ℚ) (v : ℚ) : ℚ :=
  let upper := match cfgMax with
    | none => v
    | some m => min m v
  match cfgMin with
  | none => upper
  | some m => max m upper

/-- Decimal digits of the proper fraction n/d (0 ≤ n < d), up to the given
bound. -/
def fracDigits : Nat → Nat → Nat → List Char
  | 0, _, _ => []
  | f + 1, n, d =>
    if n = 0 then []
    else Char.ofNat (48 + n * 10 / d) :: fracDigits f (n * 10 % d) d

/-- JS Number.prototype.toString for the inputs this slice produces
(terminating decimal expansions; 32 fractional digits bound), computed on
the numerator and denominator. -/
def numToString (v : ℚ) : String :=
  let neg := v < 0
  let na := v.num.natAbs
  let fs := fracDigits 32 (na % v.den) v.den
  (if neg then "-" else "") ++ toString (na / v.den) ++
    (if fs.isEmpty then "" else "." ++ String.mk fs)

/-- State of a UINumeric input (visual state, cursor-blink and arrow-button
children are not needed by the claims): the committed value, the raw
editing buffer, cursor position, editing/focus/enabled flags, the
configured min/max (none encodes the ±Infinity defaults), the format
options, and the emitted events. -/
structure NumericS where
  value : ℚ
  inputText : String
  cursorPos : Nat
  isEditing : Bool
  isFocused : Bool
  enabled : Bool
  cfgMin : Option ℚ
  cfgMax : Option ℚ
  fmt : NumFormat
  events : List NEvent
  deriving DecidableEq

/-- UINumeric.setValue: clamp, and only on a change store the value,
reformat the text, clip the cursor, leave editing mode and emit
UINumericValueChanged. -/
def setValue (n : NumericS) (v : ℚ) : NumericS :=
  let clamped := clampValue n.cfgMin n.cfgMax v
  if n.value = clamped then n
  else
    let txt := formatNumber n.fmt clamped
    { n with value := clamped, inputText := txt,
             cursorPos := min n.cursorPos txt.length,
             isEditing := false,
             events := n.events ++ [.valueChanged clamped] }

/-- UINumeric.commitValue: parse the buffer; on success setValue it, on NaN
restore the formatted committed value; then park the cursor and leave
editing mode. -/
def commitValue (n : NumericS) : NumericS :=
  let n1 := match parseNumber n.fmt n.inputText with
    | some p => setValue n p
    | none => { n with inputText := formatNumber n.fmt n.value }
  { n1 with cursorPos := n1.inputText.length, isEditing := false }

/-- UINumeric.focus: early return when disabled or already focused;
otherwise switch to raw editing mode (value.toString buffer) and emit
UINumericFocused.  The visual state and cursor-blink fields are not
modelled. -/
def focusN (n : NumericS) : NumericS :=
  if ¬ n.enabled then n
  else if n.isFocused then n
  else
    let txt := numToString n.value
    { n with isFocused := true, inputText := txt, cursorPos := txt.length,
             isEditing := true, events := n.events ++ [.focusedEv] }

/-- The keys of UINumeric.onKeyDown that the claims exercise. -/
inductive NKey where
  | enter
  | escape
  deriving Repr, DecidableEq

/-- UINumeric.onKeyDown restricted to Enter and Escape: guards on enabled
and focused; Enter commits and emits UINumericSubmit with the (post-commit)
value; Escape rewrites the buffer from the committed value, leaves editing
mode, and calls focus() (a no-op here since the input is focused). -/
def onKeyDown (n : NumericS) (k : NKey) : NumericS :=
  if ¬ n.enabled then n
  else if ¬ n.isFocused then n
  else
    match k with
    | .enter =>
      let n1 := commitValue n
      { n1 with events := n1.events ++ [.submit n1.value] }
    | .escape =>
      let n1 := { n with inputText := formatNumber n.fmt n.value }
      let n2 := { n1 with cursorPos := n1.inputText.length, isEditing := false }
      focusN n2

/-- UINumeric.setMin: store the new min and re-clamp the current value
through setValue. -/
def setMin (n : NumericS) (m : ℚ) : NumericS :=
  let n1 := { n with cfgMin := some m }
  setValue n1 n1.value

/-- UINumeric.setMax: store the new max and re-clamp the current value
through setValue. -/
def setMax (n : NumericS) (m : ℚ) : NumericS :=
  let n1 := { n with cfgMax := some m }
  setValue n1 n1.value

/-- UINumeric.getDisplayText. -/
def getDisplayText (n : NumericS) : String :=
  if n.isEditing then n.inputText else formatNumber n.fmt n.value

theorem setValue_value (n : NumericS) (v : ℚ) :
    (setValue n v).value = clampValue n.cfgMin n.cfgMax v := by
  unfold setValue
  by_cases h : n.value = clampValue n.cfgMin n.cfgMax v
  · rw [if_pos h]
    exact h
  · rw [if_neg h]

theorem setValue_events (n : NumericS) (v : ℚ) :
    (setValue n v).events =
      n.events ++
        (if n.value = clampValue n.cfgMin n.cfgMax v then []
         else [NEvent.valueChanged (clampValue n.cfgMin n.cfgMax v)]) := by
  unfold setValue
  by_cases h : n.value = clampValue n.cfgMin n.cfgMax v
  · rw [if_pos h, if_pos h]
    simp
  · rw [if_neg h, if_neg h]

/-- An example UINumeric: committed value 42, editing buffer 4299, focused,
default bounds and format. -/
def numEx : NumericS := ⟨42, "4299", 4, true, true, true, none, none, defaultFormat, []⟩

end NUM

namespace TP

/-- Events emitted through the UITabbedPanel tabbedEmitter (payload objects
reduced to the tab id they carry). -/
inductive TPEvent where
  | tabAdded (id : String)
  | tabChanged (id : String)
  | tabRemoved (id : String)
  deriving Repr, DecidableEq

/-- Association-list view of the two JS Maps of UITabbedPanel: tabs maps a
tab id to the UITab isTabActive flag, contents maps it to the UITabContent
visibility. -/
def sGet (m : List (String × Bool)) (k : String) : Option Bool :=
  (m.find? (fun p => decide (p.1 = k))).map (fun p => p.2)

def sSet (m : List (String × Bool)) (k : String) (v : Bool) : List (String × Bool) :=
  if m.any (fun p => decide (p.1 = k)) then m.map (fun p => if p.1 = k then (k, v) else p)
  else m ++ [(k, v)]

theorem sGet_cons (p : String × Bool) (t : List (String × Bool)) (k : String) :
    sGet (p :: t) k = if p.1 = k then some p.2 else sGet t k := by
  by_cases h : p.1 = k <;> simp [sGet, List.find?_cons, h]

theorem sAny_iff {m : List (String × Bool)} {k : String} :
    (m.any fun p => decide (p.1 = k)) = true ↔ (sGet m k).isSome = true := by
  induction m with
  | nil => simp [sGet]
  | cons p t ih =>
    by_cases hp : p.1 = k <;> simp [sGet_cons, hp, ih]

theorem sGetReplace (m : List (String × Bool)) (k : String) (v : Bool)
    (hk : (sGet m k).isSome) :
    sGet (m.map (fun p => if p.1 = k then (k, v) else p)) k = some v := by
  induction m with
  | nil => simp [sGet] at hk
  | cons p t ih =>
    by_cases hp : p.1 = k
    · simp [sGet_cons, hp]
    · rw [sGet_cons, if_neg hp] at hk
      simp [sGet_cons, hp, ih hk]

theorem sGetReplaceNe (m : List (String × Bool)) {k k' : String} (v : Bool) (h : k' ≠ k) :
    sGet (m.map (fun p => if p.1 = k then (k, v) else p)) k' = sGet m k' := by
  induction m with
  | nil => rfl
  | cons p t ih =>
    by_cases hp : p.1 = k
    · have hkk : ¬ (k = k') := fun hc => h hc.symm
      simp [sGet_cons, hp, hkk, ih]
    · simp [sGet_cons, hp, ih]

theorem sGetAppendNe (m : List (String × Bool)) {k k' : String} (v : Bool) (h : k' ≠ k) :
    sGet (m ++ [(k, v)]) k' = sGet m k' := by
  induction m with
  | nil => simp [sGet_cons, sGet, Ne.symm h]
  | cons p t ih =>
    by_cases hp : p.1 = k' <;> simp [sGet_cons, hp, ih]

theorem sGet_sSet_self {m : List (String × Bool)} {k : String} (v : Bool)
    (h : (sGet m k).isSome) : sGet (sSet m k v) k = some v := by
  unfold sSet
  rw [if_pos (sAny_iff.mpr h)]
  exact sGetReplace m k v h

theorem sGet_sSet_ne (m : List (String × Bool)) {k k' : String} (v : Bool) (h : k' ≠ k) :
    sGet (sSet m k v) k' = sGet m k' := by
  unfold sSet
  by_cases hh : (m.any fun p => decide (p.1 = k)) = true
  · rw [if_pos hh]
    exact sGetReplaceNe m v h
  · rw [if_neg hh]
    exact sGetAppendNe m v h

/-- State of a UITabbedPanel: the two id-keyed Maps (reduced to the flags
the claim is about), the activeTabId field, and the emitted events. -/
structure TPState where
  tabs : List (String × Bool)
  contents : List (String × Bool)
  activeTabId : Option String
  events : List TPEvent
  deriving Repr, DecidableEq

def tpInit : TPState := ⟨[], [], none, []⟩

/-- UITabbedPanel.setActiveTab: returns early (no-op) when the id has no tab
or no content; otherwise deactivates the current pair when activeTabId is
truthy (note: JS truthiness, so a present-but-empty-string id is skipped),
then activates the requested pair, records it and emits TabChanged.  There
is NO check that the id is already active. -/
def setActiveTab (s : TPState) (id : String) : TPState :=
  if (sGet s.tabs id).isNone ∨ (sGet s.contents id).isNone then s
  else
    let s1 :=
      match s.activeTabId with
      | some prev =>
        if prev ≠ "" then
          { s with
            tabs := if (sGet s.tabs prev).isSome then sSet s.tabs prev false else s.tabs,
            contents :=
              if (sGet s.contents prev).isSome then sSet s.contents prev false
              else s.contents }
        else s
      | none => s
    { s1 with activeTabId := some id,
              tabs := sSet s1.tabs id true,
              contents := sSet s1.contents id true,
              events := s1.events ++ [.tabChanged id] }

/-- UITabbedPanel.addTab (reduced to the modelled fields): warns and keeps
the existing tab when the id exists; otherwise pushes an inactive tab and a
hidden content pane, emits TabAdded, and activates it when requested or when
it is the first tab. -/
def addTab (s : TPState) (id : String) (makeActive : Bool) : TPState :=
  if (sGet s.tabs id).isSome then s
  else
    let s1 := { s with tabs := s.tabs ++ [(id, false)],
                       contents := s.contents ++ [(id, false)],
                       events := s.events ++ [.tabAdded id] }
    if makeActive ∨ s1.tabs.length = 1 then setActiveTab s1 id else s1

/-- A panel with a single tab a, which addTab auto-activated. -/
def tpEx : TPState := addTab tpInit "a" false

end TP

/-! Concrete focus-manager scenarios used by the claim theorems below. -/

/-- Two enabled widgets: id 1 at tabStopIndex 0, id 2 at tabStopIndex 1. -/
def fmEnvTwo : FM.Env := ⟨fun w => if w = 1 then 0 else 1, fun _ => true⟩

/-- A register/setFocus-only call sequence whose final state has two
registered widgets both reporting focused = true: setFocus on a not yet
registered widget leaves its focused flag set while currentTabIndex moves
away, and a later register re-admits it. -/
def fmCexTrace1 : List FM.FMOp :=
  [.setFocus 1, .register 2, .setFocus 2, .register 1]

def fmCexState1 : FM.FMState := FM.run fmEnvTwo FM.fmInit fmCexTrace1

/-- One enabled widget with tabStopIndex 0. -/
def fmEnvOne : FM.Env := ⟨fun _ => 0, fun _ => true⟩

/-- register, unregister, then a pointer-down on the stale manager
back-reference: the final currentTabIndex names a key of an empty map. -/
def fmCexState8 : FM.FMState :=
  FM.run fmEnvOne FM.fmInit [.register 1, .unregister 1, .pointerDown 1]

/-- Three enabled widgets with tab stops 0, 2, 5 (ids 1, 2, 3). -/
def fmEnvTabs : FM.Env :=
  ⟨fun w => if w = 1 then 0 else if w = 2 then 2 else 5, fun _ => true⟩

def fmStateTabs : FM.FMState :=
  FM.run fmEnvTabs FM.fmInit [.register 1, .register 2, .register 3]

/-- Widget 1 (tab 0) enabled, widget 2 (tab 1) disabled. -/
def fmEnvDis : FM.Env := ⟨fun w => if w = 1 then 0 else 1, fun w => w = 1⟩

def fmStateDis : FM.FMState :=
  FM.run fmEnvDis FM.fmInit [.register 1, .register 2, .setFocus 1]

/-- Safe trace used to witness the amended C1/C8 statements. -/
def fmWitTrace : List FM.FMOp :=
  [.register 1, .register 2, .setFocus 1, .pointerDown 2, .moveFocus true,
   .clearFocus, .moveFocus false, .unregister 1]

/-- Claim C1 (counterexample): the mutual-exclusion claim quantifies over
every sequence of register/setFocus/unregister calls from an empty manager,
but the sequence setFocus(w1); register(w2); setFocus(w2); register(w1)
ends with two registered widgets (ids 1 and 2, tab stops 0 and 1) both
reporting focused = true: setFocus does not check registration, and
unregister/overwrite never clears a stale focused flag. -/
theorem C1_counterexample :
    (1 : Nat) ∈ fmCexState1.focusedIds ∧ (2 : Nat) ∈ fmCexState1.focusedIds ∧
    mapGet fmCexState1.entries (fmEnvTwo.tabOf 1) = some 1 ∧
    mapGet fmCexState1.entries (fmEnvTwo.tabOf 2) = some 2 ∧
    ¬ (∀ a ∈ fmCexState1.focusedIds, ∀ b ∈ fmCexState1.focusedIds, a = b) := by
  decide

/-- Claim C1 (amended): for every sequence of focus-manager calls from the
empty manager in which setFocus (also the pointer-down induced one) is only
applied to currently registered components and register never overwrites a
different component at the same tabStopIndex, at most one widget reports
focused = true after the run (so in particular at most one registered
widget does). -/
theorem C1_focus_mutual_exclusion (env : FM.Env) (ops : List FM.FMOp)
    (hsafe : FM.SafeTrace env FM.fmInit ops) :
    ∀ a ∈ (FM.run env FM.fmInit ops).focusedIds,
      ∀ b ∈ (FM.run env FM.fmInit ops).focusedIds, a = b :=
  fun _ ha _ hb =>
    FM.inv_at_most_one_focused env (FM.inv_run env (FM.inv_init env) hsafe) ha hb

theorem C1_witness :
    FM.SafeTrace fmEnvTwo FM.fmInit fmWitTrace ∧
    (∀ a ∈ (FM.run fmEnvTwo FM.fmInit fmWitTrace).focusedIds,
      ∀ b ∈ (FM.run fmEnvTwo FM.fmInit fmWitTrace).focusedIds, a = b) :=
  ⟨by decide, C1_focus_mutual_exclusion fmEnvTwo fmWitTrace (by decide)⟩

/-- Claim C8 (counterexample): after register(w); unregister(w); pointer-down
on w (whose manager back-reference survives unregister), currentTabIndex is
0 while the entries map is empty, violating the claimed registry
invariant. -/
theorem C8_counterexample :
    fmCexState8.cti = 0 ∧ fmCexState8.entries = [] ∧
    ¬ (fmCexState8.cti = -1 ∨ fmCexState8.cti ∈ mapKeys fmCexState8.entries) := by
  decide

/-- Claim C8 (amended): provided setFocus (including the widget pointer-down
path through the manager back-reference) is only applied to currently
registered components, after any sequence of operations from the empty
manager, currentTabIndex is -1 or a key present in the entries map.
Duplicate-index (last-wins) registration needs no restriction here: the
registry invariant survives an overwrite, as the witness trace shows. -/
theorem C8_registry_invariant (env : FM.Env) (ops : List FM.FMOp)
    (hsafe : FM.SafeTraceReg env FM.fmInit ops) :
    (FM.run env FM.fmInit ops).cti = -1 ∨
      (FM.run env FM.fmInit ops).cti ∈ mapKeys (FM.run env FM.fmInit ops).entries :=
  (FM.invreg_run env (FM.invreg_init env) hsafe).2.2

/-- A trace that registers widget 2 over widget 1's index (both have tab
stop 0), then focuses, pointer-downs, moves, clears and unregisters. -/
def fmWitTrace8 : List FM.FMOp :=
  [.register 1, .register 2, .setFocus 2, .pointerDown 2, .moveFocus true,
   .clearFocus, .moveFocus false, .unregister 2]

theorem C8_witness :
    FM.SafeTraceReg fmEnvOne FM.fmInit fmWitTrace8 ∧
    ((FM.run fmEnvOne FM.fmInit fmWitTrace8).cti = -1 ∨
      (FM.run fmEnvOne FM.fmInit fmWitTrace8).cti ∈
        mapKeys (FM.run fmEnvOne FM.fmInit fmWitTrace8).entries) :=
  ⟨by decide, C8_registry_invariant fmEnvOne fmWitTrace8 (by decide)⟩

/-- Claim C4: moveFocus on a manager with registered widgets computes
exactly the index the specification describes (smallest key forward / largest
key backward when nothing is focused, else cyclic successor/predecessor in
the ascending-sorted key list) and calls setFocus on the widget found there,
making it the new currentTabIndex; and on tab stops [0, 2, 5] four forward
calls from no focus select 0, 2, 5, 0 while a backward call from no focus
selects 5. -/
theorem C4_cyclic_tab_order :
    (∀ (env : FM.Env) (s : FM.FMState) (forward : Bool),
      FM.wfEntries env s →
      s.entries ≠ [] →
      (s.cti = -1 ∨ s.cti ∈ mapKeys s.entries) →
      FM.moveTarget s forward = FM.moveFocusSpecTarget s forward ∧
      FM.moveFocusSpecTarget s forward ∈ mapKeys s.entries ∧
      (s.cti = -1 → forward = true →
        ∀ k ∈ mapKeys s.entries, FM.moveFocusSpecTarget s forward ≤ k) ∧
      (s.cti = -1 → forward = false →
        ∀ k ∈ mapKeys s.entries, k ≤ FM.moveFocusSpecTarget s forward) ∧
      ∃ w, mapGet s.entries (FM.moveTarget s forward) = some w ∧
        FM.moveFocus env s forward = FM.setFocus env s w ∧
        (FM.moveFocus env s forward).cti = FM.moveTarget s forward) ∧
    ((FM.moveFocus fmEnvTabs fmStateTabs true).cti = 0 ∧
     (FM.moveFocus fmEnvTabs (FM.moveFocus fmEnvTabs fmStateTabs true) true).cti = 2 ∧
     (FM.moveFocus fmEnvTabs
       (FM.moveFocus fmEnvTabs (FM.moveFocus fmEnvTabs fmStateTabs true) true) true).cti = 5 ∧
     (FM.moveFocus fmEnvTabs (FM.moveFocus fmEnvTabs
       (FM.moveFocus fmEnvTabs (FM.moveFocus fmEnvTabs fmStateTabs true) true) true) true).cti
       = 0 ∧
     (FM.moveFocus fmEnvTabs fmStateTabs false).cti = 5 ∧
     (FM.moveFocus fmEnvTabs fmStateTabs true).focusedIds = [1] ∧
     (FM.moveFocus fmEnvTabs fmStateTabs false).focusedIds = [3]) := by
  constructor
  · intro env s forward hwf hne hcti
    have heq := FM.moveTarget_eq_spec s forward hcti
    have hmem := FM.specTarget_mem_keys s forward hne
    refine ⟨heq, hmem, ?_, ?_, ?_⟩
    · intro hc hf k hk
      have hks : k ∈ FM.sortedKeys s := (FM.sortedKeys_perm s).mem_iff.mpr hk
      unfold FM.moveFocusSpecTarget
      rw [if_pos hc]
      subst hf
      simp only [if_true]
      exact FM.sorted_headD_le (FM.sortedKeys_sorted s) hks 0
    · intro hc hf k hk
      have hks : k ∈ FM.sortedKeys s := (FM.sortedKeys_perm s).mem_iff.mpr hk
      unfold FM.moveFocusSpecTarget
      rw [if_pos hc]
      subst hf
      simp only [Bool.false_eq_true, if_false]
      exact FM.sorted_le_getLastD (FM.sortedKeys_sorted s) hks 0
    · have hmem2 : FM.moveTarget s forward ∈ mapKeys s.entries := heq ▸ hmem
      obtain ⟨w, hw⟩ := get_of_mem_keys hmem2
      have hie : s.entries.isEmpty = false := by
        cases hh : s.entries with
        | nil => exact absurd hh hne
        | cons a t => rfl
      have hrun : FM.moveFocus env s forward = FM.setFocus env s w := by
        unfold FM.moveFocus
        rw [hie]
        simp only [Bool.false_eq_true, if_false, hw]
      refine ⟨w, hw, hrun, ?_⟩
      rw [hrun, FM.setFocus_cti env s w hwf]
      exact hwf _ (mapGet_eq_some_mem hw)
  · decide

theorem C4_witness :
    (FM.wfEntries fmEnvTabs fmStateTabs ∧ fmStateTabs.entries ≠ [] ∧
      (fmStateTabs.cti = -1 ∨ fmStateTabs.cti ∈ mapKeys fmStateTabs.entries)) ∧
    (FM.moveTarget fmStateTabs true = FM.moveFocusSpecTarget fmStateTabs true ∧
      FM.moveFocusSpecTarget fmStateTabs true ∈ mapKeys fmStateTabs.entries ∧
      (fmStateTabs.cti = -1 → true = true →
        ∀ k ∈ mapKeys fmStateTabs.entries, FM.moveFocusSpecTarget fmStateTabs true ≤ k) ∧
      (fmStateTabs.cti = -1 → true = false →
        ∀ k ∈ mapKeys fmStateTabs.entries, k ≤ FM.moveFocusSpecTarget fmStateTabs true) ∧
      ∃ w, mapGet fmStateTabs.entries (FM.moveTarget fmStateTabs true) = some w ∧
        FM.moveFocus fmEnvTabs fmStateTabs true = FM.setFocus fmEnvTabs fmStateTabs w ∧
        (FM.moveFocus fmEnvTabs fmStateTabs true).cti = FM.moveTarget fmStateTabs true) :=
  ⟨⟨by decide, by decide, by decide⟩,
    C4_cyclic_tab_order.1 fmEnvTabs fmStateTabs true (by decide) (by decide) (by decide)⟩

/-- Claim C9: calling setFocus on a disabled widget w that is not the
currently focused one clears the previously focused widget (afterwards no
widget holds keyboard focus at all) and still sets currentTabIndex to
w.tabStopIndex, which is not -1 whenever w has a real tab stop. -/
theorem C9_disabled_focus_drop (env : FM.Env) (s : FM.FMState) (w : Nat)
    (hinv : FM.Inv env s)
    (hdis : env.enabledOf w = false)
    (hnotcur : FM.fmFocused s ≠ some w)
    (htab : env.tabOf w ≠ -1) :
    (FM.setFocus env s w).cti = env.tabOf w ∧
    (FM.setFocus env s w).focusedIds = [] ∧
    (FM.setFocus env s w).cti ≠ -1 := by
  obtain ⟨hwf, hknd, hfnd, hcti, hfoc⟩ := hinv
  have hf : (FM.losePrev env s).focusedIds = [] := FM.losePrev_focusedIds env s hfnd hfoc
  have hen : ¬ env.enabledOf w = true := by simp [hdis]
  unfold FM.setFocus
  rw [if_neg hnotcur]
  unfold FM.widgetFocus
  dsimp only
  rw [if_neg hen]
  exact ⟨rfl, hf, htab⟩

theorem C9_witness :
    (FM.Inv fmEnvDis fmStateDis ∧ fmEnvDis.enabledOf 2 = false ∧
      FM.fmFocused fmStateDis ≠ some 2 ∧ fmEnvDis.tabOf 2 ≠ -1) ∧
    ((FM.setFocus fmEnvDis fmStateDis 2).cti = fmEnvDis.tabOf 2 ∧
      (FM.setFocus fmEnvDis fmStateDis 2).focusedIds = [] ∧
      (FM.setFocus fmEnvDis fmStateDis 2).cti ≠ -1) :=
  ⟨⟨by decide, by decide, by decide, by decide⟩,
    C9_disabled_focus_drop fmEnvDis fmStateDis 2 (by decide) (by decide) (by decide) (by decide)⟩

/-- Claim C2 (counterexample): from a fresh button after pointer-enter and
pointer-down (hovered = true, pressed = true), setEnabled(false) yields
state disabled with the hovered flag cleared but the pressed flag STILL
TRUE (onDisabled clears only isHovered and isFocused), and re-enabling
recomputes the state from the surviving pressed flag and lands on pressed,
not idle. -/
theorem C2_counterexample :
    BTN.btnHP.isHovered = true ∧ BTN.btnHP.isPressed = true ∧
    (BTN.setEnabled BTN.btnHP false).bstate = BTN.BState.disabled ∧
    (BTN.setEnabled BTN.btnHP false).isHovered = false ∧
    (BTN.setEnabled BTN.btnHP false).isPressed = true ∧
    (BTN.setEnabled (BTN.setEnabled BTN.btnHP false) true).bstate = BTN.BState.pressed := by
  decide

/-- Claim C2 (amended): for any enabled button with hovered = true and
pressed = true, setEnabled(false) yields interaction state disabled with the
hovered and focused flags cleared but the pressed flag left set; re-enabling
recomputes the state from the flags and lands on pressed (not idle); a
pointer-down while still disabled changes nothing and emits no Down
event. -/
theorem C2_disabled_overrides (b : BTN.Button)
    (he : b.enabled = true) (hh : b.isHovered = true) (hp : b.isPressed = true) :
    (BTN.setEnabled b false).bstate = BTN.BState.disabled ∧
    (BTN.setEnabled b false).isHovered = false ∧
    (BTN.setEnabled b false).isFocused = false ∧
    (BTN.setEnabled b false).isPressed = true ∧
    (BTN.setEnabled (BTN.setEnabled b false) true).bstate = BTN.BState.pressed ∧
    BTN.onPointerDown (BTN.setEnabled b false) = BTN.setEnabled b false := by
  obtain ⟨en, st, ho, pr, fo, il, ev⟩ := b
  simp only at he hh hp
  subst he hh hp
  cases fo <;>
    simp [BTN.setEnabled, BTN.interactiveSetEnabled, BTN.componentSetEnabled, BTN.loseFocusB,
      BTN.emitB, BTN.updateState, BTN.onPointerDown]

theorem C2_witness :
    (BTN.btnHP.enabled = true ∧ BTN.btnHP.isHovered = true ∧ BTN.btnHP.isPressed = true) ∧
    ((BTN.setEnabled BTN.btnHP false).bstate = BTN.BState.disabled ∧
     (BTN.setEnabled BTN.btnHP false).isHovered = false ∧
     (BTN.setEnabled BTN.btnHP false).isFocused = false ∧
     (BTN.setEnabled BTN.btnHP false).isPressed = true ∧
     (BTN.setEnabled (BTN.setEnabled BTN.btnHP false) true).bstate = BTN.BState.pressed ∧
     BTN.onPointerDown (BTN.setEnabled BTN.btnHP false) = BTN.setEnabled BTN.btnHP false) :=
  ⟨⟨by decide, by decide, by decide⟩,
    C2_disabled_overrides BTN.btnHP (by decide) (by decide) (by decide)⟩

/-- Claim C5: for an enabled, hovered button outside the ignore-leave
window, pointer-down / pointer-leave / pointer-up emits Down, Unhovered and
Up but no Clicked; pointer-down / pointer-up while still hovered emits Down,
Up and exactly one Clicked; and in general every enabled pointer-up emits Up
and emits Clicked exactly when the button was pressed and is still
hovered. -/
theorem C5_click_requires_hover (b : BTN.Button)
    (he : b.enabled = true) (hh : b.isHovered = true) (hil : b.ignoreLeave = false) :
    (BTN.onClick (BTN.onUnhover (BTN.onPointerDown b))).events =
      b.events ++ [BTN.BEvent.down, BTN.BEvent.unhoveredEv, BTN.BEvent.up] ∧
    (BTN.onClick (BTN.onPointerDown b)).events =
      b.events ++ [BTN.BEvent.down, BTN.BEvent.up, BTN.BEvent.clicked] ∧
    (∀ c : BTN.Button, c.enabled = true →
      (BTN.onClick c).events =
        c.events ++ [BTN.BEvent.up] ++
          (if c.isPressed ∧ c.isHovered then [BTN.BEvent.clicked] else [])) := by
  refine ⟨?_, ?_, ?_⟩
  · obtain ⟨en, st, ho, pr, fo, il, ev⟩ := b
    simp only at he hh hil
    subst he hh hil
    simp [BTN.onPointerDown, BTN.onUnhover, BTN.onClick, BTN.emitB, BTN.updateState]
  · obtain ⟨en, st, ho, pr, fo, il, ev⟩ := b
    simp only at he hh hil
    subst he hh hil
    simp [BTN.onPointerDown, BTN.onClick, BTN.emitB, BTN.updateState]
  · intro c hc
    obtain ⟨en, st, ho, pr, fo, il, ev⟩ := c
    simp only at hc
    subst hc
    cases pr <;> cases ho <;>
      simp [BTN.onClick, BTN.emitB, BTN.updateState]

theorem C5_witness :
    ((BTN.onHover BTN.btn0).enabled = true ∧ (BTN.onHover BTN.btn0).isHovered = true ∧
      (BTN.onHover BTN.btn0).ignoreLeave = false) ∧
    ((BTN.onClick (BTN.onUnhover (BTN.onPointerDown (BTN.onHover BTN.btn0)))).events =
        (BTN.onHover BTN.btn0).events ++
          [BTN.BEvent.down, BTN.BEvent.unhoveredEv, BTN.BEvent.up] ∧
     (BTN.onClick (BTN.onPointerDown (BTN.onHover BTN.btn0))).events =
        (BTN.onHover BTN.btn0).events ++
          [BTN.BEvent.down, BTN.BEvent.up, BTN.BEvent.clicked] ∧
     (∀ c : BTN.Button, c.enabled = true →
       (BTN.onClick c).events =
         c.events ++ [BTN.BEvent.up] ++
           (if c.isPressed ∧ c.isHovered then [BTN.BEvent.clicked] else []))) :=
  ⟨⟨by decide, by decide, by decide⟩,
    C5_click_requires_hover (BTN.onHover BTN.btn0) (by decide) (by decide) (by decide)⟩

/-- Claim C3: evaluation of the group-plus-real-checkbox system at the
failing input.  With deselection disallowed (the default), after adding two
unchecked members and checking member 0 then member 1, BOTH members end with
checked = true (selectedIndex = 1): inside select, unchecking the previous
member fires its UICheckboxChanged(false) before selectedIndex is
reassigned, and handleCheckboxChanged "re-checks" it.  The result is stable
under more fuel (deeper re-entrancy).  The related forced-back behaviour
(unchecking the selected member forces it back with no selection change and
no group event) does hold. -/
theorem C3_radio_group_eval :
    (RG.rgCex 10).checks = [true, true] ∧
    (RG.rgCex 10).selIdx = 1 ∧
    RG.countChecked (RG.rgCex 10) = 2 ∧
    ¬ RG.countChecked (RG.rgCex 10) ≤ 1 ∧
    RG.rgCex 14 = RG.rgCex 10 ∧
    (RG.setChecked 10 (RG.rgSel0 10) 0 false).checks = [true, false] ∧
    (RG.setChecked 10 (RG.rgSel0 10) 0 false).selIdx = 0 ∧
    (RG.setChecked 10 (RG.rgSel0 10) 0 false).events = (RG.rgSel0 10).events := by
  have h1 : RG.add 10 (RG.rgInit false (-1)) false =
      (⟨[false], -1, false, []⟩ : RG.RGState) := by decide
  have h2 : RG.add 10 (⟨[false], -1, false, []⟩ : RG.RGState) false =
      (⟨[false, false], -1, false, []⟩ : RG.RGState) := by decide
  have h3 : RG.setChecked 10 (⟨[false, false], -1, false, []⟩ : RG.RGState) 0 true =
      (⟨[true, false], 0, false, [.changed 0 (-1)]⟩ : RG.RGState) := by decide
  have h4 : RG.setChecked 10 (⟨[true, false], 0, false, [.changed 0 (-1)]⟩ : RG.RGState) 1 true =
      (⟨[true, true], 1, false, [.changed 0 (-1), .changed 1 0]⟩ : RG.RGState) := by decide
  have hSel : RG.rgSel0 10 = (⟨[true, false], 0, false, [.changed 0 (-1)]⟩ : RG.RGState) := by
    unfold RG.rgSel0
    rw [h1, h2, h3]
  have hCex : RG.rgCex 10 =
      (⟨[true, true], 1, false, [.changed 0 (-1), .changed 1 0]⟩ : RG.RGState) := by
    unfold RG.rgCex
    rw [hSel, h4]
  have h1b : RG.add 14 (RG.rgInit false (-1)) false =
      (⟨[false], -1, false, []⟩ : RG.RGState) := by decide
  have h2b : RG.add 14 (⟨[false], -1, false, []⟩ : RG.RGState) false =
      (⟨[false, false], -1, false, []⟩ : RG.RGState) := by decide
  have h3b : RG.setChecked 14 (⟨[false, false], -1, false, []⟩ : RG.RGState) 0 true =
      (⟨[true, false], 0, false, [.changed 0 (-1)]⟩ : RG.RGState) := by decide
  have h4b : RG.setChecked 14 (⟨[true, false], 0, false, [.changed 0 (-1)]⟩ : RG.RGState) 1 true =
      (⟨[true, true], 1, false, [.changed 0 (-1), .changed 1 0]⟩ : RG.RGState) := by decide
  have hCexB : RG.rgCex 14 =
      (⟨[true, true], 1, false, [.changed 0 (-1), .changed 1 0]⟩ : RG.RGState) := by
    unfold RG.rgCex RG.rgSel0
    rw [h1b, h2b, h3b, h4b]
  have h5 : RG.setChecked 10 (⟨[true, false], 0, false, [.changed 0 (-1)]⟩ : RG.RGState) 0 false =
      (⟨[true, false], 0, false, [.changed 0 (-1)]⟩ : RG.RGState) := by decide
  refine ⟨?_, ?_, ?_, ?_, ?_, ?_, ?_, ?_⟩
  · rw [hCex]
  · rw [hCex]
  · rw [hCex]; decide
  · rw [hCex]; decide
  · rw [hCexB, hCex]
  · rw [hSel, h5]
  · rw [hSel, h5]
  · rw [hSel, h5]

/-- Claim C7 (counterexample): on a panel whose single tab a is already
active, setActiveTab a is NOT a no-op: the active tab and every pane
visibility end unchanged, but one more TabChanged event is emitted (there is
no already-active early return in the code). -/
theorem C7_counterexample :
    TP.tpEx.activeTabId = some "a" ∧
    (TP.setActiveTab TP.tpEx "a").activeTabId = TP.tpEx.activeTabId ∧
    (TP.setActiveTab TP.tpEx "a").tabs = TP.tpEx.tabs ∧
    (TP.setActiveTab TP.tpEx "a").contents = TP.tpEx.contents ∧
    (TP.setActiveTab TP.tpEx "a").events =
      TP.tpEx.events ++ [TP.TPEvent.tabChanged "a"] ∧
    ¬ (TP.setActiveTab TP.tpEx "a").events = TP.tpEx.events := by
  decide

/-- Claim C7 (amended): setActiveTab with an unknown id (no tab or no
content pane) is a complete no-op; setActiveTab with the id that is already
active (and consistent flags: that tab active and its pane visible) leaves
the active tab, every tab flag and every pane visibility unchanged, but
emits one TabChanged notification rather than none. -/
theorem C7_setActiveTab_noop (s : TP.TPState) (id : String) :
    ((TP.sGet s.tabs id).isNone ∨ (TP.sGet s.contents id).isNone →
      TP.setActiveTab s id = s) ∧
    (s.activeTabId = some id → id ≠ "" →
      TP.sGet s.tabs id = some true → TP.sGet s.contents id = some true →
      (TP.setActiveTab s id).activeTabId = s.activeTabId ∧
      (∀ t : String, TP.sGet (TP.setActiveTab s id).tabs t = TP.sGet s.tabs t) ∧
      (∀ t : String, TP.sGet (TP.setActiveTab s id).contents t = TP.sGet s.contents t) ∧
      (TP.setActiveTab s id).events = s.events ++ [TP.TPEvent.tabChanged id]) := by
  constructor
  · intro h
    unfold TP.setActiveTab
    rw [if_pos h]
  · intro hact hne htab hcont
    have htabs : (TP.sGet s.tabs id).isSome := by rw [htab]; rfl
    have hconts : (TP.sGet s.contents id).isSome := by rw [hcont]; rfl
    have hcond : ¬ ((TP.sGet s.tabs id).isNone ∨ (TP.sGet s.contents id).isNone) := by
      rw [htab, hcont]
      simp
    unfold TP.setActiveTab
    rw [if_neg hcond, hact]
    simp only [ne_eq, hne, not_false_eq_true, ite_true, htabs, hconts, if_true]
    refine ⟨trivial, ?_, ?_, trivial⟩
    · intro t
      by_cases ht : t = id
      · subst ht
        rw [TP.sGet_sSet_self true (by rw [TP.sGet_sSet_self false htabs]; rfl), htab]
      · rw [TP.sGet_sSet_ne _ true ht, TP.sGet_sSet_ne _ false ht]
    · intro t
      by_cases ht : t = id
      · subst ht
        rw [TP.sGet_sSet_self true (by rw [TP.sGet_sSet_self false hconts]; rfl), hcont]
      · rw [TP.sGet_sSet_ne _ true ht, TP.sGet_sSet_ne _ false ht]

/-- Claim C10: setValue stores exactly the clamped value max(min, min(max,
v)) and emits exactly one UINumericValueChanged when the clamped value
differs from the previous one and none otherwise; setMin and setMax
re-apply the same clamp to the current value; and clampValue is literally
the claimed max/min formula in every min/max configuration. -/
theorem C10_setValue_clamps :
    (∀ (n : NUM.NumericS) (v : ℚ),
      (NUM.setValue n v).value = NUM.clampValue n.cfgMin n.cfgMax v ∧
      (NUM.setValue n v).events =
        n.events ++
          (if n.value = NUM.clampValue n.cfgMin n.cfgMax v then []
           else [NUM.NEvent.valueChanged (NUM.clampValue n.cfgMin n.cfgMax v)])) ∧
    (∀ (n : NUM.NumericS) (m : ℚ),
      (NUM.setMin n m).value = NUM.clampValue (some m) n.cfgMax n.value ∧
      (NUM.setMax n m).value = NUM.clampValue n.cfgMin (some m) n.value) ∧
    (∀ (lo hi v : ℚ),
      NUM.clampValue (some lo) (some hi) v = max lo (min hi v) ∧
      NUM.clampValue none (some hi) v = min hi v ∧
      NUM.clampValue (some lo) none v = max lo v ∧
      NUM.clampValue none none v = v) :=
  ⟨fun n v => ⟨NUM.setValue_value n v, NUM.setValue_events n v⟩,
   fun n m => ⟨NUM.setValue_value { n with cfgMin := some m } n.value,
               NUM.setValue_value { n with cfgMax := some m } n.value⟩,
   fun _ _ _ => ⟨rfl, rfl, rfl, rfl⟩⟩

/-- Claim C6: on a focused, enabled UINumeric with committed value 42,
editing buffer 4299 and the default format, Escape restores the committed
value 42 (display text 42.00) without emitting anything, while Enter
commits the parse of the buffer clamped to min/max and emits exactly one
UINumericValueChanged and one UINumericSubmit (stated for configurations
where the clamped 4299 differs from 42; when the clamp collapses to the old
value, setValue emits nothing, per C10). -/
theorem C6_numeric_escape_enter (n : NUM.NumericS)
    (he : n.enabled = true) (hf : n.isFocused = true)
    (hv : n.value = 42) (ht : n.inputText = "4299") (hfmt : n.fmt = NUM.defaultFormat)
    (hcl : NUM.clampValue n.cfgMin n.cfgMax 4299 ≠ 42) :
    (NUM.onKeyDown n NUM.NKey.escape).value = 42 ∧
    (NUM.onKeyDown n NUM.NKey.escape).events = n.events ∧
    (NUM.onKeyDown n NUM.NKey.escape).isEditing = false ∧
    NUM.getDisplayText (NUM.onKeyDown n NUM.NKey.escape) = "42.00" ∧
    (NUM.onKeyDown n NUM.NKey.enter).value = NUM.clampValue n.cfgMin n.cfgMax 4299 ∧
    (NUM.onKeyDown n NUM.NKey.enter).events =
      n.events ++ [NUM.NEvent.valueChanged (NUM.clampValue n.cfgMin n.cfgMax 4299),
                   NUM.NEvent.submit (NUM.clampValue n.cfgMin n.cfgMax 4299)] := by
  obtain ⟨val, it, cp, ie, ifo, en, mn, mx, fm, ev⟩ := n
  simp only at he hf hv ht hfmt hcl
  subst he hf hv ht hfmt
  have hp : NUM.parseNumber NUM.defaultFormat "4299" = some (4299 : ℚ) := by decide
  have hfmt42 : NUM.formatNumber NUM.defaultFormat 42 = "42.00" := by decide
  have hne : ¬ ((42 : ℚ) = NUM.clampValue mn mx 4299) := fun hc => hcl hc.symm
  refine ⟨?_, ?_, ?_, ?_, ?_, ?_⟩ <;>
    simp [NUM.onKeyDown, NUM.focusN, NUM.commitValue, NUM.setValue, NUM.getDisplayText,
      hp, hfmt42, hne]

theorem C6_witness :
    (NUM.numEx.enabled = true ∧ NUM.numEx.isFocused = true ∧ NUM.numEx.value = 42 ∧
      NUM.numEx.inputText = "4299" ∧ NUM.numEx.fmt = NUM.defaultFormat ∧
      NUM.clampValue NUM.numEx.cfgMin NUM.numEx.cfgMax 4299 ≠ 42) ∧
    ((NUM.onKeyDown NUM.numEx NUM.NKey.escape).value = 42 ∧
     (NUM.onKeyDown NUM.numEx NUM.NKey.escape).events = NUM.numEx.events ∧
     (NUM.onKeyDown NUM.numEx NUM.NKey.escape).isEditing = false ∧
     NUM.getDisplayText (NUM.onKeyDown NUM.numEx NUM.NKey.escape) = "42.00" ∧
     (NUM.onKeyDown NUM.numEx NUM.NKey.enter).value =
       NUM.clampValue NUM.numEx.cfgMin NUM.numEx.cfgMax 4299 ∧
     (NUM.onKeyDown NUM.numEx NUM.NKey.enter).events =
       NUM.numEx.events ++
         [NUM.NEvent.valueChanged (NUM.clampValue NUM.numEx.cfgMin NUM.numEx.cfgMax 4299),
          NUM.NEvent.submit (NUM.clampValue NUM.numEx.cfgMin NUM.numEx.cfgMax 4299)]) :=
  ⟨⟨by decide, by decide, by decide, by decide, by decide, by decide⟩,
    C6_numeric_escape_enter NUM.numEx (by decide) (by decide) (by decide) (by decide)
      (by decide) (by decide)⟩

theorem C7_witness :
    (TP.tpEx.activeTabId = some "a" ∧ ("a" : String) ≠ "" ∧
      TP.sGet TP.tpEx.tabs "a" = some true ∧ TP.sGet TP.tpEx.contents "a" = some true) ∧
    ((TP.setActiveTab TP.tpEx "a").activeTabId = TP.tpEx.activeTabId ∧
     (∀ t : String, TP.sGet (TP.setActiveTab TP.tpEx "a").tabs t = TP.sGet TP.tpEx.tabs t) ∧
     (∀ t : String,
        TP.sGet (TP.setActiveTab TP.tpEx "a").contents t = TP.sGet TP.tpEx.contents t) ∧
     (TP.setActiveTab TP.tpEx "a").events = TP.tpEx.events ++ [TP.TPEvent.tabChanged "a"]) :=
  ⟨⟨by decide, by decide, by decide, by decide⟩,
    (C7_setActiveTab_noop TP.tpEx "a").2 (by decide) (by decide) (by decide) (by decide)⟩

end UIFW
